import Mathlib

/-!
# System-call argument fetching and dispatch (`syscall.c`)

A shallow embedding of `syscall.c` and theorems about it.

Conventions of the embedding

* `uint` values (`proc->sz`, `proc->tf->esp`, `proc->tf->eax`, addresses) are
  natural numbers; every unsigned operation of the source that can leave the
  32-bit range is followed by an explicit `% 2 ^ 32`.
* `int` values are integers.  Conversions between `int` and `uint` are the
  two's-complement ones (`toU32`, `toInt32`).  Signed overflow and pointer
  differences beyond `INT_MAX` are undefined in C and are not given a wrapped
  meaning: `sys_counts[num]++` and `s - *pp` are the mathematical results.
* An output parameter (`int *ip`, `char **pp`) is passed as the value the
  location holds before the call; the function returns the pair of its C
  return value and the value the location holds afterwards.
* `proc.h` and `syscall.h` are not part of the translated file.  The fields of
  `struct proc` read by `syscall.c` are collected in `Proc`; the `SYS_*`
  numbers are a parameter (`SyscallH`).
-/

namespace Syscall

/-! ## Machine integers -/

/-- Conversion of a C `int` to `uint`: reduction modulo `2 ^ 32`. -/
def toU32 (x : Int) : Nat := (x % 2 ^ 32).toNat

/-- Conversion of a `uint` to C `int`: the two's-complement reading. -/
def toInt32 (x : Nat) : Int :=
  if x % 2 ^ 32 < 2 ^ 31 then ((x % 2 ^ 32 : Nat) : Int) else ((x % 2 ^ 32 : Nat) : Int) - 2 ^ 32

/-! ## The current process -/

/-- A byte of memory. -/
abbrev Byte := Fin 256

/-- The parts of `struct proc` (and of its trap frame `tf`) that `syscall.c` reads or writes,
together with the memory the process addresses run over. -/
structure Proc where
  /-- Field `proc->sz`: size of process memory in bytes (`uint`). -/
  sz : Nat
  /-- Field `proc->tf->esp`: the saved user stack pointer (`uint`). -/
  esp : Nat
  /-- Field `proc->tf->eax`: system call number on entry, return value on exit (`uint`). -/
  eax : Nat
  /-- Field `proc->pid`. -/
  pid : Int
  /-- Field `proc->name`. -/
  name : String
  /-- Memory contents, byte by byte. -/
  mem : Nat → Byte

/-- The value of `*(int*)(addr)`: four bytes, least significant first. -/
def readInt (mem : Nat → Byte) (addr : Nat) : Int :=
  toInt32 ((mem addr).val + (mem (addr + 1)).val * 2 ^ 8 + (mem (addr + 2)).val * 2 ^ 16
    + (mem (addr + 3)).val * 2 ^ 24)

/-! ## Argument fetching -/

/-- Function `fetchint(uint addr, int *ip)`. -/
def fetchint (p : Proc) (addr : Nat) (ip : Int) : Int × Int :=
  if addr ≥ p.sz ∨ (addr + 4) % 2 ^ 32 > p.sz then
    (-1, ip)
  else
    (0, readInt p.mem addr)

/-- The loop `for(s = *pp; s < ep; s++) if(*s == 0) return s - *pp; return -1;` of `fetchstr`.
The first argument is `ep - s`, the number of iterations left before `s < ep` fails. -/
def fetchstr_loop (mem : Nat → Byte) (start : Nat) : Nat → Nat → Int
  | 0, _ => -1
  | left + 1, s => if mem s = 0 then (s : Int) - (start : Int) else fetchstr_loop mem start left (s + 1)

/-- Function `fetchstr(uint addr, char **pp)`. -/
def fetchstr (p : Proc) (addr : Nat) (pp : Nat) : Int × Nat :=
  if addr ≥ p.sz then
    (-1, pp)
  else
    (fetchstr_loop p.mem addr (p.sz - addr) addr, addr)

/-- Function `argint(int n, int *ip)`. -/
def argint (p : Proc) (n : Int) (ip : Int) : Int × Int :=
  fetchint p (toU32 ((p.esp : Int) + 4 + 4 * n)) ip

/-- Function `argptr(int n, char **pp, int size)`.  The local `i` is uninitialised in the source;
it is read only after `argint` has stored into it, so its initial value (here `0`) is immaterial. -/
def argptr (p : Proc) (n : Int) (pp : Nat) (size : Int) : Int × Nat :=
  let r := argint p n 0
  if r.1 < 0 then
    (-1, pp)
  else if toU32 r.2 ≥ p.sz ∨ (toU32 r.2 + toU32 size) % 2 ^ 32 > p.sz then
    (-1, pp)
  else
    (0, toU32 r.2)

/-- Function `argstr(int n, char **pp)`.  The local `addr` is uninitialised in the source and read
only after `argint` has stored into it. -/
def argstr (p : Proc) (n : Int) (pp : Nat) : Int × Nat :=
  let r := argint p n 0
  if r.1 < 0 then
    (-1, pp)
  else
    fetchstr p (toU32 r.2) pp

/-! ## The system call table -/

/-- The kernel functions declared `extern int sys_...(void)` in `syscall.c`. -/
inductive Handler where
  | sys_chdir | sys_close | sys_dup | sys_exec | sys_exit | sys_fork | sys_fstat | sys_getpid
  | sys_kill | sys_link | sys_mkdir | sys_mknod | sys_open | sys_pipe | sys_read | sys_sbrk
  | sys_sleep | sys_unlink | sys_wait | sys_write | sys_uptime | sys_usermem
  deriving DecidableEq, Repr

/-- The system call numbers `#define`d in `syscall.h` and used by `syscall.c`.  The header is not
part of the translated file, so the numbers are a parameter of the embedding. -/
structure SyscallH where
  SYS_fork : Nat
  SYS_exit : Nat
  SYS_wait : Nat
  SYS_pipe : Nat
  SYS_read : Nat
  SYS_kill : Nat
  SYS_exec : Nat
  SYS_fstat : Nat
  SYS_chdir : Nat
  SYS_dup : Nat
  SYS_getpid : Nat
  SYS_sbrk : Nat
  SYS_sleep : Nat
  SYS_uptime : Nat
  SYS_open : Nat
  SYS_write : Nat
  SYS_mknod : Nat
  SYS_unlink : Nat
  SYS_link : Nat
  SYS_mkdir : Nat
  SYS_close : Nat
  SYS_usermem : Nat
  SYS_count : Nat

/-- The designated initialisers of `static int (*syscalls[])(void)`, in source order. -/
def syscalls_init (h : SyscallH) : List (Nat × Handler) :=
  [ (h.SYS_fork, .sys_fork), (h.SYS_exit, .sys_exit), (h.SYS_wait, .sys_wait),
    (h.SYS_pipe, .sys_pipe), (h.SYS_read, .sys_read), (h.SYS_kill, .sys_kill),
    (h.SYS_exec, .sys_exec), (h.SYS_fstat, .sys_fstat), (h.SYS_chdir, .sys_chdir),
    (h.SYS_dup, .sys_dup), (h.SYS_getpid, .sys_getpid), (h.SYS_sbrk, .sys_sbrk),
    (h.SYS_sleep, .sys_sleep), (h.SYS_uptime, .sys_uptime), (h.SYS_open, .sys_open),
    (h.SYS_write, .sys_write), (h.SYS_mknod, .sys_mknod), (h.SYS_unlink, .sys_unlink),
    (h.SYS_link, .sys_link), (h.SYS_mkdir, .sys_mkdir), (h.SYS_close, .sys_close),
    (h.SYS_usermem, .sys_usermem) ]

/-- The value of `NELEM(syscalls)`: an array without a declared length is one longer than its
largest designated index. -/
def NELEM_syscalls (h : SyscallH) : Nat :=
  (syscalls_init h).foldl (fun m e => max m (e.1 + 1)) 0

/-- The entry `syscalls[i]`: the function of the last initialiser designating `i`, and `none`
(a null pointer) for an index that no initialiser designates. -/
def syscalls (h : SyscallH) (i : Nat) : Option Handler :=
  ((syscalls_init h).reverse.find? (fun e => e.1 == i)).map (fun e => e.2)

/-- Modelled from the spec: the contents of `syscall.h`, which is not part of the translated file.
The call identifiers are "small positive integers, contiguous from 1, each bound at build time to
exactly one named handler and one display name", and "one identifier is reserved for the toggle
(count)".  The display names of `print_sys_counts` bind `fork` to 1, ..., `close` to 21 and
`count` to 22; the table has 22 handlers, so the remaining handler `sys_usermem` sits at 22, the
identifier whose display name is `count`. -/
def syscall_h : SyscallH where
  SYS_fork := 1
  SYS_exit := 2
  SYS_wait := 3
  SYS_pipe := 4
  SYS_read := 5
  SYS_kill := 6
  SYS_exec := 7
  SYS_fstat := 8
  SYS_chdir := 9
  SYS_dup := 10
  SYS_getpid := 11
  SYS_sbrk := 12
  SYS_sleep := 13
  SYS_uptime := 14
  SYS_open := 15
  SYS_write := 16
  SYS_mknod := 17
  SYS_unlink := 18
  SYS_link := 19
  SYS_mkdir := 20
  SYS_close := 21
  SYS_usermem := 22
  SYS_count := 22

/-! ## Console output -/

/-- One call of `cprintf` made by `syscall.c`, with its arguments. -/
inductive Cprintf where
  /-- The call `cprintf("%d %s: unknown sys call %d\n", proc->pid, proc->name, num)`. -/
  | unknown (pid : Int) (name : String) (num : Int)
  /-- The call `cprintf("Kevin_Brewton_A20311395\nSYSTEM CALL COUNTS\n")`. -/
  | header
  /-- The call `cprintf("Sys call %s count = %d\n", syscallnames[i], sys_counts[i])`; the name is
  `none` when the array entry was never assigned. -/
  | line (name : Option String) (count : Int)
  deriving DecidableEq, Repr

/-- The text a `cprintf` call writes; `none` when `%s` is given an unassigned array entry. -/
def Cprintf.text : Cprintf → Option String
  | .unknown pid name num =>
      some (toString pid ++ " " ++ name ++ ": unknown sys call " ++ toString num ++ "\n")
  | .header => some "Kevin_Brewton_A20311395\nSYSTEM CALL COUNTS\n"
  | .line (some name) count => some ("Sys call " ++ name ++ " count = " ++ toString count ++ "\n")
  | .line none _ => none

/-- The local array `syscallnames` of `print_sys_counts` after its assignments; `none` for an
entry that is not assigned. -/
def syscallnames : Nat → Option String
  | 1 => some "fork"
  | 2 => some "exit"
  | 3 => some "wait"
  | 4 => some "pipe"
  | 5 => some "read"
  | 6 => some "kill"
  | 7 => some "exec"
  | 8 => some "fstat"
  | 9 => some "chdir"
  | 10 => some "dup"
  | 11 => some "getpid"
  | 12 => some "sbrk"
  | 13 => some "sleep"
  | 14 => some "uptime"
  | 15 => some "open"
  | 16 => some "write"
  | 17 => some "mknod"
  | 18 => some "unlink"
  | 19 => some "link"
  | 20 => some "mkdir"
  | 21 => some "close"
  | 22 => some "count"
  | _ => none

/-- Function `print_sys_counts()`: the `cprintf` calls it makes, in order, for the given contents
of `sys_counts`.  The loop runs `i` from `1` while `i < NELEM(syscalls)`. -/
def print_sys_counts (h : SyscallH) (sys_counts : Nat → Int) : List Cprintf :=
  Cprintf.header ::
    (List.range' 1 (NELEM_syscalls h - 1)).map (fun i => Cprintf.line (syscallnames i) (sys_counts i))

/-! ## The dispatcher -/

/-- The state `syscall()` runs in: the current process, the three globals of the tally, what has
been written to the console, which table entries have been called, and the rest of the kernel
(`env`), which only the handlers see. -/
structure Kernel (Env : Type) where
  /-- The current process `proc`. -/
  proc : Proc
  /-- Global `int sys_counts[NELEM(syscalls)]`. -/
  sys_counts : Nat → Int
  /-- Global `int sys_count_print_flag`. -/
  sys_count_print_flag : Int
  /-- Global `int sys_count_flag`. -/
  sys_count_flag : Int
  /-- The `cprintf` calls made so far by `syscall.c`, oldest first. -/
  console : List Cprintf
  /-- The handlers called so far through `syscalls[num]()`, oldest first. -/
  invoked : List Handler
  /-- Kernel state outside `syscall.c`. -/
  env : Env

/-- The bodies of the handlers, which live outside `syscall.c`.  A handler takes no argument and
returns an `int`; it may read and change the current process and the rest of the kernel.  It does
not touch the tally globals and does not call `syscall()`. -/
abbrev Handlers (Env : Type) := Handler → Proc → Env → Int × Proc × Env

/-- The C operator `!` on an `int`. -/
def lnot (x : Int) : Int := if x = 0 then 1 else 0

/-- The test `num > 0 && num < NELEM(syscalls) && syscalls[num]`: the function pointer found when
the test passes, `none` when it fails. -/
def lookup (h : SyscallH) (num : Int) : Option Handler :=
  if num > 0 ∧ num < (NELEM_syscalls h : Int) then syscalls h num.toNat else none

/-- Function `syscall()`. -/
def syscall {Env : Type} (h : SyscallH) (impl : Handlers Env) (k : Kernel Env) : Kernel Env :=
  let num := toInt32 k.proc.eax
  match lookup h num with
  | some f =>
    let flag := if num = (h.SYS_count : Int) then lnot k.sys_count_flag else k.sys_count_flag
    let r := impl f k.proc k.env
    let k1 : Kernel Env :=
      { k with
        proc := { r.2.1 with eax := toU32 r.1 }
        env := r.2.2
        invoked := k.invoked ++ [f]
        sys_count_flag := flag }
    if flag = 1 then
      { k1 with
        sys_counts := fun i => if i = num.toNat then k.sys_counts i + 1 else k.sys_counts i
        sys_count_print_flag := 1 }
    else if k.sys_count_print_flag ≠ 0 then
      { k1 with
        console := k.console ++ print_sys_counts h k.sys_counts
        sys_count_print_flag := 0 }
    else
      k1
  | none =>
    { k with
      console := k.console ++ [Cprintf.unknown k.proc.pid k.proc.name num]
      proc := { k.proc with eax := toU32 (-1) } }

/-- The state at boot: the tally globals are zero-initialised, nothing has been printed or called. -/
def boot {Env : Type} (p : Proc) (e : Env) : Kernel Env where
  proc := p
  sys_counts := fun _ => 0
  sys_count_print_flag := 0
  sys_count_flag := 0
  console := []
  invoked := []
  env := e

/-! ## Concrete data used in the examples -/

/-- A memory that holds `1` in every byte except the listed ones. -/
def memOf (bytes : List (Nat × Byte)) : Nat → Byte :=
  fun a => ((bytes.find? (fun e => e.1 == a)).map (fun e => e.2)).getD 1

/-- A process with the given size, stack pointer, call number and memory. -/
def procOf (sz esp eax : Nat) (mem : Nat → Byte) : Proc where
  sz := sz
  esp := esp
  eax := eax
  pid := 3
  name := "sh"
  mem := mem

/-- Handlers for the examples: each returns `7` and counts its calls in the environment. -/
def countingHandlers : Handlers Nat := fun _ p e => (7, p, e + 1)

/-- Trap entry: the process `p` that makes the next system call becomes the current process. -/
def enter {Env : Type} (p : Proc) (k : Kernel Env) : Kernel Env :=
  { k with proc := p }

/-- The boot state with a current process (pid 3, `sh`) whose `eax` holds the call number `eax`. -/
def bootCalling (eax : Nat) : Kernel Nat :=
  boot (procOf 100 80 eax (memOf [])) 0

/-- A state with counting on and a report pending, all counters 0, the current process about to
make call 22. -/
def countingOn : Kernel Nat :=
  { bootCalling 22 with sys_count_flag := 1, sys_count_print_flag := 1 }

/-- The state after one system call, made by the current process of `k`. -/
def after1 {Env : Type} (h : SyscallH) (impl : Handlers Env) (k : Kernel Env) : Kernel Env :=
  syscall h impl k

/-- The state after a second system call, made by process `p2`. -/
def after2 {Env : Type} (h : SyscallH) (impl : Handlers Env) (k : Kernel Env) (p2 : Proc) :
    Kernel Env :=
  syscall h impl (enter p2 (after1 h impl k))

/-- The state after a third system call, made by process `p3`. -/
def after3 {Env : Type} (h : SyscallH) (impl : Handlers Env) (k : Kernel Env) (p2 p3 : Proc) :
    Kernel Env :=
  syscall h impl (enter p3 (after2 h impl k p2))

/-- The value of `sys_count_flag` when the handler is called: inverted when `num == SYS_count`. -/
def flagAtCall {Env : Type} (h : SyscallH) (k : Kernel Env) : Int :=
  if toInt32 k.proc.eax = (h.SYS_count : Int) then lnot k.sys_count_flag else k.sys_count_flag

/-- Successive system calls: the processes of the list trap one after the other, and each call
runs `syscall()` to completion before the next one enters. -/
def run {Env : Type} (h : SyscallH) (impl : Handlers Env) : List Proc → Kernel Env → Kernel Env
  | [], k => k
  | p :: ps, k => run h impl ps (syscall h impl (enter p k))

/-- The number of reports on the console: `print_sys_counts` prints its header once per call. -/
def reports (console : List Cprintf) : Nat :=
  console.count Cprintf.header

/-- A toggle-off dispatch: process `p` traps with the count identifier in `eax`, the identifier
passes the test of `syscall()`, and counting is on (`sys_count_flag == 1`) in the state `k` the
call starts from. -/
def isToggleOff {Env : Type} (h : SyscallH) (p : Proc) (k : Kernel Env) : Bool :=
  (lookup h (toInt32 p.eax)).isSome && decide (toInt32 p.eax = (h.SYS_count : Int))
    && decide (k.sys_count_flag = 1)

/-- The number of toggle-off dispatches among successive system calls. -/
def toggleOffs {Env : Type} (h : SyscallH) (impl : Handlers Env) : List Proc → Kernel Env → Nat
  | [], _ => 0
  | p :: ps, k =>
    (if isToggleOff h p k then 1 else 0) + toggleOffs h impl ps (syscall h impl (enter p k))

/-- The index at which `syscall()` writes `sys_counts`, when it writes at all: the statement
`sys_counts[num]++` runs in the branch `sys_count_flag == 1` of a call that passed the test. -/
def sys_counts_written {Env : Type} (h : SyscallH) (k : Kernel Env) : Option Nat :=
  match lookup h (toInt32 k.proc.eax) with
  | some _ => if flagAtCall h k = 1 then some (toInt32 k.proc.eax).toNat else none
  | none => none

/-- The values the loop variable `i` of `print_sys_counts` takes; the loop body reads
`syscallnames[i]` and `sys_counts[i]` and no other entry. -/
def print_sys_counts_indices (h : SyscallH) : List Nat :=
  List.range' 1 (NELEM_syscalls h - 1)

/-- The display name that matches a handler, in the sense of the specification: the name of the
C function without its `sys_` prefix, as `fork` for `sys_fork` and `close` for `sys_close`. -/
def handlerName : Handler → String
  | .sys_chdir => "chdir"
  | .sys_close => "close"
  | .sys_dup => "dup"
  | .sys_exec => "exec"
  | .sys_exit => "exit"
  | .sys_fork => "fork"
  | .sys_fstat => "fstat"
  | .sys_getpid => "getpid"
  | .sys_kill => "kill"
  | .sys_link => "link"
  | .sys_mkdir => "mkdir"
  | .sys_mknod => "mknod"
  | .sys_open => "open"
  | .sys_pipe => "pipe"
  | .sys_read => "read"
  | .sys_sbrk => "sbrk"
  | .sys_sleep => "sleep"
  | .sys_unlink => "unlink"
  | .sys_wait => "wait"
  | .sys_write => "write"
  | .sys_uptime => "uptime"
  | .sys_usermem => "usermem"

/-! ## Lemmas on machine integers -/

theorem toInt32_of_lt (x : Nat) (hx : x < 2 ^ 31) : toInt32 x = (x : Int) := by
  unfold toInt32
  have h1 : x % 2 ^ 32 = x := Nat.mod_eq_of_lt (by omega)
  rw [h1, if_pos hx]

theorem toInt32_toU32 (r : Int) (hlo : -2 ^ 31 ≤ r) (hhi : r < 2 ^ 31) : toInt32 (toU32 r) = r := by
  unfold toInt32 toU32
  split_ifs <;> omega

theorem toInt32_neg_one : toInt32 (toU32 (-1)) = -1 := by decide

theorem neg_one_ne_zero_int : ¬ ((-1 : Int) = 0) := by decide

theorem neg_one_not_nonneg : ¬ ((0 : Int) ≤ -1) := by decide

/-! ## Argument fetching: theorems -/

theorem fetchint_of_fail (p : Proc) (a : Nat) (ip : Int)
    (h : a ≥ p.sz ∨ (a + 4) % 2 ^ 32 > p.sz) : fetchint p a ip = (-1, ip) := by
  unfold fetchint
  rw [if_pos h]

theorem fetchint_of_pass (p : Proc) (a : Nat) (ip : Int)
    (h : ¬ (a ≥ p.sz ∨ (a + 4) % 2 ^ 32 > p.sz)) : fetchint p a ip = (0, readInt p.mem a) := by
  unfold fetchint
  rw [if_neg h]

/-- C1 (counterexample): with `sz = 2^32 - 1` the call `fetchint(2^32 - 2)` returns 0 although
`a + 4`, computed without wrap-around, exceeds `sz`: the sum `addr+4` of the source wraps to 2. -/
theorem fetchint_wraps_at_top :
    (fetchint (procOf 4294967295 0 0 (memOf [])) 4294967294 0).1 = 0
      ∧ 4294967294 < 4294967295 ∧ ¬ (4294967294 + 4 ≤ 4294967295) := by
  decide

/-- C1 (amended): when `sz ≤ 2^32 - 4`, `fetchint(a)` returns 0 exactly when `a < sz` and
`a + 4 ≤ sz` (the sum taken in the natural numbers), it then stores the four bytes at `a`, and in
every other case it returns -1 and leaves `*ip` alone. -/
theorem fetchint_ok_iff (p : Proc) (a : Nat) (ip : Int) (hsz : p.sz ≤ 2 ^ 32 - 4) :
    ((fetchint p a ip).1 = 0 ↔ a < p.sz ∧ a + 4 ≤ p.sz)
      ∧ (a < p.sz ∧ a + 4 ≤ p.sz → fetchint p a ip = (0, readInt p.mem a))
      ∧ (¬ (a < p.sz ∧ a + 4 ≤ p.sz) → fetchint p a ip = (-1, ip)) := by
  have key : (a ≥ p.sz ∨ (a + 4) % 2 ^ 32 > p.sz) ↔ ¬ (a < p.sz ∧ a + 4 ≤ p.sz) := by
    omega
  by_cases hc : a < p.sz ∧ a + 4 ≤ p.sz
  · have hn : ¬ (a ≥ p.sz ∨ (a + 4) % 2 ^ 32 > p.sz) := by
      rw [key]; exact not_not.mpr hc
    rw [fetchint_of_pass p a ip hn]
    exact ⟨⟨fun _ => hc, fun _ => rfl⟩, fun _ => rfl, fun h => absurd hc h⟩
  · rw [fetchint_of_fail p a ip (key.mpr hc)]
    exact ⟨⟨fun h => absurd h neg_one_ne_zero_int, fun h => absurd h hc⟩,
      fun h => absurd h hc, fun _ => rfl⟩

/-- C1 (witness): the amended statement at `sz = 100`, `a = 84`. -/
theorem fetchint_ok_iff_witness :
    (100 : Nat) ≤ 2 ^ 32 - 4
      ∧ ((fetchint (procOf 100 80 0 (memOf [])) 84 0).1 = 0 ↔ 84 < 100 ∧ 84 + 4 ≤ 100) :=
  ⟨by decide, (fetchint_ok_iff (procOf 100 80 0 (memOf [])) 84 0 (by decide)).1⟩

/-- C2 (failing input): with `sz = 100` and the argument word `10`, `argptr(0, &p, -1)` returns 0
and hands out the pointer 10, although the size read as an unsigned byte count is `2^32 - 1` and
`10 + (2^32 - 1)` is far above `sz`: the sum `(uint)i+size` of the source wraps to 9. -/
theorem argptr_negative_size_accepted :
    argint (procOf 100 80 0 (memOf [(84, 10), (85, 0), (86, 0), (87, 0)])) 0 0 = (0, 10)
      ∧ argptr (procOf 100 80 0 (memOf [(84, 10), (85, 0), (86, 0), (87, 0)])) 0 0 (-1) = (0, 10)
      ∧ toU32 (-1) = 4294967295
      ∧ ¬ (10 + toU32 (-1) ≤ 100) := by
  decide

theorem fetchstr_loop_none (mem : Nat → Byte) (start : Nat) :
    ∀ (left s : Nat), (∀ j, s ≤ j → j < s + left → mem j ≠ 0) →
      fetchstr_loop mem start left s = -1 := by
  intro left
  induction left with
  | zero => intro s _; rfl
  | succ m ih =>
    intro s h
    have hs : mem s ≠ 0 := h s (Nat.le_refl s) (by omega)
    unfold fetchstr_loop
    rw [if_neg hs]
    exact ih (s + 1) (fun j h1 h2 => h j (by omega) (by omega))

theorem fetchstr_loop_found (mem : Nat → Byte) (start : Nat) :
    ∀ (left s k : Nat), s ≤ k → k < s + left → mem k = 0 → (∀ j, s ≤ j → j < k → mem j ≠ 0) →
      fetchstr_loop mem start left s = (k : Int) - (start : Int) := by
  intro left
  induction left with
  | zero => intro s k h1 h2; omega
  | succ m ih =>
    intro s k h1 h2 hk hmin
    unfold fetchstr_loop
    by_cases hsk : s = k
    · subst hsk
      rw [if_pos hk]
    · have hs : mem s ≠ 0 := hmin s (Nat.le_refl s) (by omega)
      rw [if_neg hs]
      exact ih (s + 1) k (by omega) (by omega) hk (fun j h3 h4 => hmin j (by omega) h4)

theorem fetchstr_loop_congr (mem mem' : Nat → Byte) (start : Nat) :
    ∀ (left s : Nat), (∀ j, s ≤ j → j < s + left → mem' j = mem j) →
      fetchstr_loop mem' start left s = fetchstr_loop mem start left s := by
  intro left
  induction left with
  | zero => intro s _; rfl
  | succ m ih =>
    intro s h
    unfold fetchstr_loop
    rw [h s (Nat.le_refl s) (by omega), ih (s + 1) (fun j h1 h2 => h j (by omega) (by omega))]

/-- A zero byte in `[s, e)` has a first one. -/
theorem exists_first_zero (mem : Nat → Byte) (s e : Nat)
    (h : ∃ j, s ≤ j ∧ j < e ∧ mem j = 0) :
    ∃ k, s ≤ k ∧ k < e ∧ mem k = 0 ∧ ∀ j, s ≤ j → j < k → mem j ≠ 0 := by
  classical
  refine ⟨Nat.find h, (Nat.find_spec h).1, (Nat.find_spec h).2.1, (Nat.find_spec h).2.2, ?_⟩
  intro j hsj hjk hz
  exact Nat.find_min h hjk ⟨hsj, Nat.lt_trans hjk (Nat.find_spec h).2.1, hz⟩

/-- What `fetchstr` returns, case by case. -/
theorem fetchstr_cases (p : Proc) (a pp : Nat) :
    (a ≥ p.sz ∧ fetchstr p a pp = (-1, pp))
      ∨ (a < p.sz ∧ (∀ j, a ≤ j → j < p.sz → p.mem j ≠ 0) ∧ fetchstr p a pp = (-1, a))
      ∨ (a < p.sz ∧ ∃ k : Nat, a + k < p.sz ∧ p.mem (a + k) = 0 ∧ (∀ j, j < k → p.mem (a + j) ≠ 0)
          ∧ fetchstr p a pp = ((k : Int), a)) := by
  by_cases ha : a ≥ p.sz
  · left
    refine ⟨ha, ?_⟩
    unfold fetchstr
    rw [if_pos ha]
  · right
    have ha' : a < p.sz := by omega
    have hdef : fetchstr p a pp = (fetchstr_loop p.mem a (p.sz - a) a, a) := by
      unfold fetchstr
      rw [if_neg ha]
    by_cases hz : ∃ j, a ≤ j ∧ j < p.sz ∧ p.mem j = 0
    · right
      obtain ⟨k, hk1, hk2, hk3, hk4⟩ := exists_first_zero p.mem a p.sz hz
      refine ⟨ha', k - a, by omega, ?_, ?_, ?_⟩
      · rw [show a + (k - a) = k by omega]; exact hk3
      · intro j hj; exact hk4 (a + j) (by omega) (by omega)
      · rw [hdef, fetchstr_loop_found p.mem a (p.sz - a) a k hk1 (by omega) hk3 hk4]
        congr 1
        omega
    · left
      have hnz : ∀ j, a ≤ j → j < p.sz → p.mem j ≠ 0 :=
        fun j h1 h2 h3 => hz ⟨j, h1, h2, h3⟩
      refine ⟨ha', hnz, ?_⟩
      rw [hdef, fetchstr_loop_none p.mem a (p.sz - a) a (fun j h1 h2 => hnz j h1 (by omega))]

theorem argint_cases (p : Proc) (n : Int) (ip : Int) :
    argint p n ip = (-1, ip) ∨ ∃ v, argint p n ip = (0, v) := by
  unfold argint
  by_cases hc : toU32 ((p.esp : Int) + 4 + 4 * n) ≥ p.sz
      ∨ (toU32 ((p.esp : Int) + 4 + 4 * n) + 4) % 2 ^ 32 > p.sz
  · left; exact fetchint_of_fail p _ ip hc
  · right; exact ⟨_, fetchint_of_pass p _ ip hc⟩

theorem argstr_of_fail (p : Proc) (n : Int) (pp : Nat) (h : argint p n 0 = (-1, 0)) :
    argstr p n pp = (-1, pp) := by
  unfold argstr
  rw [h]
  rfl

theorem argstr_of_pass (p : Proc) (n : Int) (pp : Nat) (v : Int) (h : argint p n 0 = (0, v)) :
    argstr p n pp = fetchstr p (toU32 v) pp := by
  unfold argstr
  rw [h]
  rfl

/-- C4: `argstr(n)` returns -1 when `argint(n)` fails.  When `argint(n)` fetches the word `a`,
`argstr(n)` returns some `k ≥ 0` exactly when `a < sz` and some byte in `[a, sz)` is zero; `k` is
then the least offset with a zero byte at `a + k` and `*pp` is `a`; in every other case the return
value is -1.  With `sz = 100`, the bytes `l`, `s`, 0 at address 50 give 2; the same bytes at 98,
the zero at address 100 and no zero byte in `[98, 100)`, give -1. -/
theorem argstr_spec (p : Proc) (n : Int) (pp : Nat) :
    ((argint p n 0).1 ≠ 0 → (argstr p n pp).1 = -1)
      ∧ ((argint p n 0).1 = 0 →
          (0 ≤ (argstr p n pp).1 ↔
              toU32 (argint p n 0).2 < p.sz
                ∧ ∃ j, toU32 (argint p n 0).2 ≤ j ∧ j < p.sz ∧ p.mem j = 0)
            ∧ (∀ k : Nat, (argstr p n pp).1 = (k : Int) →
                p.mem (toU32 (argint p n 0).2 + k) = 0
                  ∧ (∀ j, j < k → p.mem (toU32 (argint p n 0).2 + j) ≠ 0)
                  ∧ (argstr p n pp).2 = toU32 (argint p n 0).2)
            ∧ (¬ 0 ≤ (argstr p n pp).1 → (argstr p n pp).1 = -1))
      ∧ argstr (procOf 100 80 0 (memOf [(84, 50), (85, 0), (86, 0), (87, 0),
            (50, 108), (51, 115), (52, 0)])) 0 0 = (2, 50)
      ∧ (argstr (procOf 100 80 0 (memOf [(84, 98), (85, 0), (86, 0), (87, 0),
            (98, 108), (99, 115), (100, 0)])) 0 0).1 = -1 := by
  refine ⟨?_, ?_, by decide, by decide⟩
  · intro hne
    rcases argint_cases p n 0 with h | ⟨v, h⟩
    · rw [argstr_of_fail p n pp h]
    · rw [h] at hne
      exact absurd rfl hne
  · intro heq
    rcases argint_cases p n 0 with h | ⟨v, h⟩
    · rw [h] at heq
      exact absurd heq neg_one_ne_zero_int
    · rw [argstr_of_pass p n pp v h, h]
      show (0 ≤ (fetchstr p (toU32 v) pp).1 ↔
              toU32 v < p.sz ∧ ∃ j, toU32 v ≤ j ∧ j < p.sz ∧ p.mem j = 0)
            ∧ (∀ k : Nat, (fetchstr p (toU32 v) pp).1 = (k : Int) →
                p.mem (toU32 v + k) = 0
                  ∧ (∀ j, j < k → p.mem (toU32 v + j) ≠ 0)
                  ∧ (fetchstr p (toU32 v) pp).2 = toU32 v)
            ∧ (¬ 0 ≤ (fetchstr p (toU32 v) pp).1 → (fetchstr p (toU32 v) pp).1 = -1)
      rcases fetchstr_cases p (toU32 v) pp with ⟨ha, he⟩ | ⟨ha, hnz, he⟩ | ⟨ha, k, hk, hz, hmin, he⟩
      · rw [he]
        refine ⟨⟨fun h0 => absurd h0 neg_one_not_nonneg, fun h0 => absurd h0.1 (by omega)⟩, ?_, fun _ => rfl⟩
        intro k hk
        have : (-1 : Int) = (k : Int) := hk
        omega
      · rw [he]
        refine ⟨⟨fun h0 => absurd h0 neg_one_not_nonneg, ?_⟩, ?_, fun _ => rfl⟩
        · rintro ⟨_, j, h1, h2, h3⟩
          exact absurd h3 (hnz j h1 h2)
        · intro k hk
          have : (-1 : Int) = (k : Int) := hk
          omega
      · rw [he]
        refine ⟨⟨fun _ => ⟨ha, toU32 v + k, by omega, hk, hz⟩, fun _ => Int.natCast_nonneg k⟩, ?_, ?_⟩
        · intro k' hk'
          have hkk : k = k' := by
            have : (k : Int) = (k' : Int) := hk'
            omega
          subst hkk
          exact ⟨hz, hmin, rfl⟩
        · intro hneg
          exact absurd (Int.natCast_nonneg k) hneg

/-- C4 (witness): the general statement applied to the string at address 50. -/
theorem argstr_spec_witness :
    (argint (procOf 100 80 0 (memOf [(84, 50), (85, 0), (86, 0), (87, 0),
        (50, 108), (51, 115), (52, 0)])) 0 0).1 = 0
      ∧ (0 ≤ (argstr (procOf 100 80 0 (memOf [(84, 50), (85, 0), (86, 0), (87, 0),
            (50, 108), (51, 115), (52, 0)])) 0 7).1) :=
  ⟨by decide,
    ((argstr_spec (procOf 100 80 0 (memOf [(84, 50), (85, 0), (86, 0), (87, 0),
        (50, 108), (51, 115), (52, 0)])) 0 7).2.1 (by decide)).1.mpr
      ⟨by decide, 52, by decide, by decide, by decide⟩⟩

/-- C5: `fetchstr` looks only at bytes in `[a, sz)`: two memories that agree there give the same
return value and the same `*pp`.  A string whose terminator is the last byte below `sz` is
accepted with length `sz - 1 - a`, and when no byte in `[a, sz)` is zero the call returns -1
whatever lies at or beyond `sz`. -/
theorem fetchstr_reads_below_sz (p : Proc) (a pp : Nat) :
    (∀ mem' : Nat → Byte, (∀ j, a ≤ j → j < p.sz → mem' j = p.mem j) →
        fetchstr { p with mem := mem' } a pp = fetchstr p a pp)
      ∧ (a < p.sz → p.mem (p.sz - 1) = 0 → (∀ j, a ≤ j → j < p.sz - 1 → p.mem j ≠ 0) →
          fetchstr p a pp = (((p.sz - 1 - a : Nat) : Int), a))
      ∧ ((∀ j, a ≤ j → j < p.sz → p.mem j ≠ 0) → (fetchstr p a pp).1 = -1) := by
  refine ⟨?_, ?_, ?_⟩
  · intro mem' hagree
    unfold fetchstr
    by_cases ha : a ≥ p.sz
    · rw [if_pos ha, if_pos ha]
    · rw [if_neg ha, if_neg ha]
      show (fetchstr_loop mem' a (p.sz - a) a, a) = (fetchstr_loop p.mem a (p.sz - a) a, a)
      rw [fetchstr_loop_congr p.mem mem' a (p.sz - a) a (fun j h1 h2 => hagree j h1 (by omega))]
  · intro ha hz hnz
    unfold fetchstr
    rw [if_neg (by omega)]
    rw [fetchstr_loop_found p.mem a (p.sz - a) a (p.sz - 1) (by omega) (by omega) hz hnz]
    congr 1
    omega
  · intro hnz
    rcases fetchstr_cases p a pp with ⟨_, he⟩ | ⟨_, _, he⟩ | ⟨_, k, hk, hz, _, _⟩
    · rw [he]
    · rw [he]
    · exact absurd hz (hnz (a + k) (by omega) hk)

/-- C5 (witness): `sz = 100`, the string `ls` at 97 with its terminator at 99; a memory that
differs at and beyond 100 gives the same result, which is length 2 at pointer 97. -/
theorem fetchstr_reads_below_sz_witness :
    (∀ j, 97 ≤ j → j < (procOf 100 80 0 (memOf [(97, 108), (98, 115), (99, 0)])).sz →
        memOf [(97, 108), (98, 115), (99, 0), (100, 0), (101, 0)] j
          = (procOf 100 80 0 (memOf [(97, 108), (98, 115), (99, 0)])).mem j)
      ∧ fetchstr { procOf 100 80 0 (memOf [(97, 108), (98, 115), (99, 0)]) with
            mem := memOf [(97, 108), (98, 115), (99, 0), (100, 0), (101, 0)] } 97 0
          = fetchstr (procOf 100 80 0 (memOf [(97, 108), (98, 115), (99, 0)])) 97 0
      ∧ fetchstr (procOf 100 80 0 (memOf [(97, 108), (98, 115), (99, 0)])) 97 0 = (2, 97) := by
  have hag : ∀ j, 97 ≤ j → j < (procOf 100 80 0 (memOf [(97, 108), (98, 115), (99, 0)])).sz →
        memOf [(97, 108), (98, 115), (99, 0), (100, 0), (101, 0)] j
          = (procOf 100 80 0 (memOf [(97, 108), (98, 115), (99, 0)])).mem j := by
    intro j h1 h2
    have h3 : j < 100 := h2
    interval_cases j <;> rfl
  exact ⟨hag,
    (fetchstr_reads_below_sz (procOf 100 80 0 (memOf [(97, 108), (98, 115), (99, 0)])) 97 0).1
      _ hag,
    (fetchstr_reads_below_sz (procOf 100 80 0 (memOf [(97, 108), (98, 115), (99, 0)])) 97 0).2.1
      (by decide) (by decide) (by
        intro j h1 h2
        have h3 : j < 99 := h2
        interval_cases j <;> decide)⟩

/-! ## The dispatcher: theorems -/

theorem syscall_of_none {Env : Type} (h : SyscallH) (impl : Handlers Env) (k : Kernel Env)
    (hl : lookup h (toInt32 k.proc.eax) = none) :
    syscall h impl k =
      { k with
        console := k.console ++ [Cprintf.unknown k.proc.pid k.proc.name (toInt32 k.proc.eax)]
        proc := { k.proc with eax := toU32 (-1) } } := by
  simp only [syscall, hl]

theorem syscall_of_some {Env : Type} (h : SyscallH) (impl : Handlers Env) (k : Kernel Env)
    (f : Handler) (hl : lookup h (toInt32 k.proc.eax) = some f) :
    (syscall h impl k).invoked = k.invoked ++ [f]
      ∧ (syscall h impl k).proc = { (impl f k.proc k.env).2.1 with eax := toU32 (impl f k.proc k.env).1 }
      ∧ (syscall h impl k).env = (impl f k.proc k.env).2.2
      ∧ (syscall h impl k).sys_count_flag = flagAtCall h k
      ∧ (syscall h impl k).sys_counts =
          (if flagAtCall h k = 1 then
            fun i => if i = (toInt32 k.proc.eax).toNat then k.sys_counts i + 1 else k.sys_counts i
          else k.sys_counts)
      ∧ (syscall h impl k).sys_count_print_flag = (if flagAtCall h k = 1 then 1 else 0)
      ∧ (syscall h impl k).console =
          (if flagAtCall h k = 1 then k.console
          else if k.sys_count_print_flag ≠ 0 then k.console ++ print_sys_counts h k.sys_counts
          else k.console) := by
  simp only [syscall, hl, flagAtCall]
  split_ifs <;> simp_all

theorem lookup_of_unknown (h : SyscallH) (num : Int)
    (hbad : num ≤ 0 ∨ num ≥ (NELEM_syscalls h : Int) ∨ syscalls h num.toNat = none) :
    lookup h num = none := by
  unfold lookup
  by_cases hc : num > 0 ∧ num < (NELEM_syscalls h : Int)
  · rw [if_pos hc]
    rcases hbad with h1 | h1 | h1
    · omega
    · omega
    · exact h1
  · rw [if_neg hc]

theorem lookup_of_known (h : SyscallH) (num : Int) (f : Handler)
    (h1 : 0 < num) (h2 : num < (NELEM_syscalls h : Int)) (h3 : syscalls h num.toNat = some f) :
    lookup h num = some f := by
  unfold lookup
  rw [if_pos ⟨h1, h2⟩, h3]

/-- C6: when the call number `num` (the signed reading of `eax`) is `≤ 0`, or `≥ NELEM(syscalls)`,
or indexes a null slot, `syscall()` calls no handler (the list of calls and the rest of the kernel
are unchanged), stores -1 in `eax`, and makes exactly one `cprintf` call, the one that writes
`<pid> <name>: unknown sys call <num>`. -/
theorem syscall_unknown_call {Env : Type} (h : SyscallH) (impl : Handlers Env) (k : Kernel Env)
    (hbad : toInt32 k.proc.eax ≤ 0 ∨ toInt32 k.proc.eax ≥ (NELEM_syscalls h : Int)
      ∨ syscalls h (toInt32 k.proc.eax).toNat = none) :
    (syscall h impl k).invoked = k.invoked
      ∧ (syscall h impl k).env = k.env
      ∧ toInt32 (syscall h impl k).proc.eax = -1
      ∧ (syscall h impl k).console
          = k.console ++ [Cprintf.unknown k.proc.pid k.proc.name (toInt32 k.proc.eax)]
      ∧ (Cprintf.unknown k.proc.pid k.proc.name (toInt32 k.proc.eax)).text
          = some (toString k.proc.pid ++ " " ++ k.proc.name ++ ": unknown sys call "
              ++ toString (toInt32 k.proc.eax) ++ "\n") := by
  rw [syscall_of_none h impl k (lookup_of_unknown h _ hbad)]
  exact ⟨rfl, rfl, toInt32_neg_one, rfl, rfl⟩

/-- C6 (witness): call number 0 from process 3 `sh` in the boot state. -/
theorem syscall_unknown_call_witness :
    toInt32 (bootCalling 0).proc.eax ≤ 0
      ∧ toInt32 (syscall syscall_h countingHandlers (bootCalling 0)).proc.eax = -1
      ∧ (syscall syscall_h countingHandlers (bootCalling 0)).console = [Cprintf.unknown 3 "sh" 0]
      ∧ (Cprintf.unknown 3 "sh" 0).text = some "3 sh: unknown sys call 0\n" :=
  ⟨by decide,
    (syscall_unknown_call syscall_h countingHandlers (bootCalling 0) (Or.inl (by decide))).2.2.1,
    (syscall_unknown_call syscall_h countingHandlers (bootCalling 0) (Or.inl (by decide))).2.2.2.1,
    by decide⟩

/-- C7: when `0 < num < NELEM(syscalls)` and the slot `syscalls[num]` holds `f`, `syscall()` calls
`f` and nothing else, once, and `eax` afterwards holds the value `f` returned: the value converted
to `uint`, which read back as an `int` is the returned value itself for every `int`, negative ones
included, whatever the tally globals hold. -/
theorem syscall_known_call {Env : Type} (h : SyscallH) (impl : Handlers Env) (k : Kernel Env)
    (f : Handler) (h1 : 0 < toInt32 k.proc.eax) (h2 : toInt32 k.proc.eax < (NELEM_syscalls h : Int))
    (h3 : syscalls h (toInt32 k.proc.eax).toNat = some f) :
    (syscall h impl k).invoked = k.invoked ++ [f]
      ∧ (syscall h impl k).env = (impl f k.proc k.env).2.2
      ∧ (syscall h impl k).proc.eax = toU32 (impl f k.proc k.env).1
      ∧ (-2 ^ 31 ≤ (impl f k.proc k.env).1 → (impl f k.proc k.env).1 < 2 ^ 31 →
          toInt32 (syscall h impl k).proc.eax = (impl f k.proc k.env).1) := by
  obtain ⟨e1, e2, e3, _⟩ := syscall_of_some h impl k f (lookup_of_known h _ f h1 h2 h3)
  refine ⟨e1, e3, by rw [e2], ?_⟩
  intro hlo hhi
  rw [e2]
  exact toInt32_toU32 _ hlo hhi

/-- C7 (witness): call number 11 (`sys_getpid`) in the boot state, with a handler returning -5. -/
theorem syscall_known_call_witness :
    0 < toInt32 (bootCalling 11).proc.eax
      ∧ syscalls syscall_h (toInt32 (bootCalling 11).proc.eax).toNat = some Handler.sys_getpid
      ∧ (syscall syscall_h (fun _ p e => (-5, p, e + 1)) (bootCalling 11)).invoked
          = [Handler.sys_getpid]
      ∧ toInt32 (syscall syscall_h (fun _ p e => (-5, p, e + 1)) (bootCalling 11)).proc.eax = -5 :=
  ⟨by decide, by decide,
    (syscall_known_call syscall_h (fun _ p e => (-5, p, e + 1)) (bootCalling 11) Handler.sys_getpid
      (by decide) (by decide) (by decide)).1,
    (syscall_known_call syscall_h (fun _ p e => (-5, p, e + 1)) (bootCalling 11) Handler.sys_getpid
      (by decide) (by decide) (by decide)).2.2.2 (by decide) (by decide)⟩

theorem print_sys_counts_line (h : SyscallH) (c : Nat → Int) (i : Nat)
    (h1 : 1 ≤ i) (h2 : i < NELEM_syscalls h) :
    (print_sys_counts h c)[i]? = some (Cprintf.line (syscallnames i) (c i)) := by
  obtain ⟨j, rfl⟩ : ∃ j, i = j + 1 := ⟨i - 1, by omega⟩
  unfold print_sys_counts
  rw [List.getElem?_cons_succ, List.getElem?_map,
    List.getElem?_range' 1 1 (show j < NELEM_syscalls h - 1 by omega)]
  simp [Nat.add_comm]

/-- C8 (counterexample): from the boot state (counting off) a dispatch of the count identifier
leaves its own counter at 1, one more than before; and with counting on and a report pending, a
dispatch of the count identifier leaves its counter where it was, and the report it emits shows
that unchanged value (0) on the line of identifier 22. -/
theorem count_call_tally_counterexample :
    (bootCalling 22).sys_count_flag = 0
      ∧ toInt32 (bootCalling 22).proc.eax = (syscall_h.SYS_count : Int)
      ∧ (syscall syscall_h countingHandlers (bootCalling 22)).invoked = [Handler.sys_usermem]
      ∧ (bootCalling 22).sys_counts 22 = 0
      ∧ (syscall syscall_h countingHandlers (bootCalling 22)).sys_counts 22 = 1
      ∧ countingOn.sys_count_flag = 1
      ∧ toInt32 countingOn.proc.eax = (syscall_h.SYS_count : Int)
      ∧ (syscall syscall_h countingHandlers countingOn).invoked = [Handler.sys_usermem]
      ∧ countingOn.sys_counts 22 = 0
      ∧ (syscall syscall_h countingHandlers countingOn).sys_counts 22 = 0
      ∧ (syscall syscall_h countingHandlers countingOn).console[0]? = some Cprintf.header
      ∧ (syscall syscall_h countingHandlers countingOn).console[22]?
          = some (Cprintf.line (some "count") 0) := by
  decide

/-- C8 (amended): when the count identifier is dispatched while counting is off, that call
increments the count identifier's own counter by 1 (and no other counter) and emits no report;
when it is dispatched while counting is on, that call changes no counter, and the report it emits
when one is pending lists the counters as they were before the call. -/
theorem count_call_tally {Env : Type} (h : SyscallH) (impl : Handlers Env) (k : Kernel Env)
    (f : Handler) (hnum : toInt32 k.proc.eax = (h.SYS_count : Int))
    (h1 : 0 < (h.SYS_count : Int)) (h2 : (h.SYS_count : Int) < (NELEM_syscalls h : Int))
    (h3 : syscalls h h.SYS_count = some f) :
    (k.sys_count_flag = 0 →
        (syscall h impl k).sys_counts h.SYS_count = k.sys_counts h.SYS_count + 1
          ∧ (∀ i, i ≠ h.SYS_count → (syscall h impl k).sys_counts i = k.sys_counts i)
          ∧ (syscall h impl k).sys_count_flag = 1
          ∧ (syscall h impl k).console = k.console)
      ∧ (k.sys_count_flag = 1 →
          (syscall h impl k).sys_counts = k.sys_counts
            ∧ (syscall h impl k).sys_count_flag = 0
            ∧ (k.sys_count_print_flag ≠ 0 →
                (syscall h impl k).console = k.console ++ print_sys_counts h k.sys_counts)) := by
  have hl : lookup h (toInt32 k.proc.eax) = some f := by
    rw [hnum]
    exact lookup_of_known h _ f h1 h2 (by rw [Int.toNat_ofNat]; exact h3)
  have hidx : (toInt32 k.proc.eax).toNat = h.SYS_count := by
    rw [hnum, Int.toNat_ofNat]
  obtain ⟨_, _, _, e4, e5, _, e7⟩ := syscall_of_some h impl k f hl
  constructor
  · intro hoff
    have hflag : flagAtCall h k = 1 := by
      unfold flagAtCall
      rw [if_pos hnum, hoff]
      rfl
    rw [e4, e5, e7, hflag, hidx]
    refine ⟨by simp, ?_, rfl, by simp⟩
    intro i hi
    simp [hi]
  · intro hon
    have hflag : flagAtCall h k = 0 := by
      unfold flagAtCall
      rw [if_pos hnum, hon]
      rfl
    rw [e4, e5, e7, hflag]
    refine ⟨by simp, rfl, ?_⟩
    intro hp
    simp [hp]

/-- C8 (witness): the amended statement for the header `syscall_h` in the boot state. -/
theorem count_call_tally_witness :
    toInt32 (bootCalling 22).proc.eax = (syscall_h.SYS_count : Int)
      ∧ syscalls syscall_h syscall_h.SYS_count = some Handler.sys_usermem
      ∧ (syscall syscall_h countingHandlers (bootCalling 22)).sys_counts syscall_h.SYS_count
          = (bootCalling 22).sys_counts syscall_h.SYS_count + 1 :=
  ⟨by decide, by decide,
    ((count_call_tally syscall_h countingHandlers (bootCalling 22) Handler.sys_usermem
      (by decide) (by decide) (by decide) (by decide)).1 (by decide)).1⟩

/-- C9: with the call numbers of `syscall_h`, `SYS_count` is inside the bounds of `syscalls[]` and
its slot is populated (by `sys_usermem`), so in every state a dispatch with `num = SYS_count`
calls that handler, never prints the unknown-call line, and leaves `sys_count_flag` inverted:
0 becomes 1 and 1 becomes 0. -/
theorem count_dispatch_toggles {Env : Type} (impl : Handlers Env) (k : Kernel Env)
    (hnum : toInt32 k.proc.eax = (syscall_h.SYS_count : Int)) :
    0 < syscall_h.SYS_count
      ∧ syscall_h.SYS_count < NELEM_syscalls syscall_h
      ∧ syscalls syscall_h syscall_h.SYS_count = some Handler.sys_usermem
      ∧ (syscall syscall_h impl k).invoked = k.invoked ++ [Handler.sys_usermem]
      ∧ (syscall syscall_h impl k).sys_count_flag = lnot k.sys_count_flag
      ∧ (k.sys_count_flag = 0 → (syscall syscall_h impl k).sys_count_flag = 1)
      ∧ (k.sys_count_flag = 1 → (syscall syscall_h impl k).sys_count_flag = 0)
      ∧ ((syscall syscall_h impl k).console = k.console
          ∨ (syscall syscall_h impl k).console
              = k.console ++ print_sys_counts syscall_h k.sys_counts) := by
  have hl : lookup syscall_h (toInt32 k.proc.eax) = some Handler.sys_usermem := by
    rw [hnum]
    decide
  obtain ⟨e1, _, _, e4, _, _, e7⟩ := syscall_of_some syscall_h impl k Handler.sys_usermem hl
  have hflag : flagAtCall syscall_h k = lnot k.sys_count_flag := by
    unfold flagAtCall
    rw [if_pos hnum]
  refine ⟨by decide, by decide, by decide, e1, by rw [e4, hflag], ?_, ?_, ?_⟩
  · intro h0
    rw [e4, hflag, h0]
    rfl
  · intro h1
    rw [e4, hflag, h1]
    rfl
  · rw [e7]
    split_ifs
    · exact Or.inl rfl
    · exact Or.inr rfl
    · exact Or.inl rfl

/-- C9 (witness): the count identifier dispatched in the boot state and with counting on. -/
theorem count_dispatch_toggles_witness :
    toInt32 (bootCalling 22).proc.eax = (syscall_h.SYS_count : Int)
      ∧ (syscall syscall_h countingHandlers (bootCalling 22)).sys_count_flag = 1
      ∧ (syscall syscall_h countingHandlers countingOn).sys_count_flag = 0 :=
  ⟨by decide,
    (count_dispatch_toggles countingHandlers (bootCalling 22) (by decide)).2.2.2.2.2.1 (by decide),
    (count_dispatch_toggles countingHandlers countingOn (by decide)).2.2.2.2.2.2.1 (by decide)⟩

/-- C10: from a state with counting off (with or without a report pending), the dispatches
(count, X, count), with X a populated identifier other than the count identifier, leave X's
counter exactly 1 higher;
the first two dispatches print nothing and the third prints exactly one report; the line of X in
that report shows the incremented count; and when all counters were 0 at the start, every
identifier other than X and the count identifier is shown with 0. -/
theorem count_x_count {Env : Type} (h : SyscallH) (impl : Handlers Env) (k : Kernel Env)
    (px pc : Proc) (X : Nat) (fc fx : Handler)
    (hoff : k.sys_count_flag = 0)
    (hk : toInt32 k.proc.eax = (h.SYS_count : Int))
    (hpx : toInt32 px.eax = (X : Int))
    (hpc : toInt32 pc.eax = (h.SYS_count : Int))
    (hc1 : 0 < h.SYS_count) (hc2 : h.SYS_count < NELEM_syscalls h)
    (hc3 : syscalls h h.SYS_count = some fc)
    (hx1 : 0 < X) (hx2 : X < NELEM_syscalls h) (hx3 : syscalls h X = some fx)
    (hne : X ≠ h.SYS_count) :
    (after3 h impl k px pc).sys_counts X = k.sys_counts X + 1
      ∧ (after1 h impl k).console = k.console
      ∧ (after2 h impl k px).console = k.console
      ∧ (after3 h impl k px pc).console
          = k.console ++ print_sys_counts h (after3 h impl k px pc).sys_counts
      ∧ (print_sys_counts h (after3 h impl k px pc).sys_counts)[X]?
          = some (Cprintf.line (syscallnames X) (k.sys_counts X + 1))
      ∧ ((∀ i, k.sys_counts i = 0) →
          ∀ i, 1 ≤ i → i < NELEM_syscalls h → i ≠ X → i ≠ h.SYS_count →
            (print_sys_counts h (after3 h impl k px pc).sys_counts)[i]?
              = some (Cprintf.line (syscallnames i) 0))
      ∧ (after3 h impl k px pc).sys_count_flag = 0
      ∧ (after3 h impl k px pc).sys_count_print_flag = 0
      ∧ (after3 h impl k px pc).invoked = k.invoked ++ [fc, fx, fc] := by
  have lc : lookup h (h.SYS_count : Int) = some fc :=
    lookup_of_known h _ fc (by omega) (by omega) (by rw [Int.toNat_ofNat]; exact hc3)
  have lx : lookup h (X : Int) = some fx :=
    lookup_of_known h _ fx (by omega) (by omega) (by rw [Int.toNat_ofNat]; exact hx3)
  have hXc : ¬ ((X : Int) = (h.SYS_count : Int)) := by omega
  -- first dispatch: the count identifier, counting off
  have f1 : flagAtCall h k = 1 := by
    unfold flagAtCall
    rw [if_pos hk, hoff]
    rfl
  obtain ⟨a1, _, _, a4, a5, a6, a7⟩ := syscall_of_some h impl k fc (by rw [hk]; exact lc)
  rw [f1] at a4 a5 a6 a7
  rw [hk, Int.toNat_ofNat] at a5
  simp only [if_true] at a5 a6 a7
  -- second dispatch: X, counting on
  have f2 : flagAtCall h (enter px (after1 h impl k)) = 1 := by
    unfold flagAtCall
    show (if toInt32 px.eax = (h.SYS_count : Int) then lnot (after1 h impl k).sys_count_flag
      else (after1 h impl k).sys_count_flag) = 1
    rw [hpx, if_neg hXc]
    exact a4
  obtain ⟨b1, _, _, b4, b5, b6, b7⟩ :=
    syscall_of_some h impl (enter px (after1 h impl k)) fx (by
      show lookup h (toInt32 px.eax) = some fx
      rw [hpx]; exact lx)
  rw [f2] at b4 b5 b6 b7
  simp only [if_true] at b5 b6 b7
  have b5' : (after2 h impl k px).sys_counts
      = fun i => if i = X then (after1 h impl k).sys_counts i + 1
          else (after1 h impl k).sys_counts i := by
    rw [show (after2 h impl k px).sys_counts
      = (syscall h impl (enter px (after1 h impl k))).sys_counts from rfl, b5]
    show (fun i => if i = (toInt32 px.eax).toNat then _ else _) = _
    rw [hpx, Int.toNat_ofNat]
    rfl
  -- third dispatch: the count identifier, counting on
  have f3 : flagAtCall h (enter pc (after2 h impl k px)) = 0 := by
    unfold flagAtCall
    show (if toInt32 pc.eax = (h.SYS_count : Int) then lnot (after2 h impl k px).sys_count_flag
      else (after2 h impl k px).sys_count_flag) = 0
    rw [if_pos hpc]
    show lnot (syscall h impl (enter px (after1 h impl k))).sys_count_flag = 0
    rw [b4]
    rfl
  obtain ⟨c1, _, _, c4, c5, c6, c7⟩ :=
    syscall_of_some h impl (enter pc (after2 h impl k px)) fc (by
      show lookup h (toInt32 pc.eax) = some fc
      rw [hpc]; exact lc)
  rw [f3] at c4 c5 c6 c7
  have hpend : (enter pc (after2 h impl k px)).sys_count_print_flag ≠ 0 := by
    show (syscall h impl (enter px (after1 h impl k))).sys_count_print_flag ≠ 0
    rw [b6]
    decide
  simp only [if_neg (show ¬ ((0 : Int) = 1) by decide), if_pos hpend] at c5 c6 c7
  have c5' : (after3 h impl k px pc).sys_counts = (after2 h impl k px).sys_counts := c5
  have cnt : ∀ i, (after3 h impl k px pc).sys_counts i
      = if i = X then k.sys_counts i + 1
        else if i = h.SYS_count then k.sys_counts i + 1 else k.sys_counts i := by
    intro i
    rw [c5', b5']
    show (if i = X then (syscall h impl k).sys_counts i + 1 else (syscall h impl k).sys_counts i) = _
    rw [a5]
    by_cases hi : i = X
    · subst hi
      simp [hne]
    · simp [hi]
  have hcon1 : (after1 h impl k).console = k.console := a7
  have hcon2 : (after2 h impl k px).console = k.console := by
    show (syscall h impl (enter px (after1 h impl k))).console = k.console
    rw [b7]
    exact a7
  refine ⟨?_, hcon1, hcon2, ?_, ?_, ?_, c4, c6, ?_⟩
  · rw [cnt X]
    simp
  · show (syscall h impl (enter pc (after2 h impl k px))).console = _
    rw [c7, c5']
    show (after2 h impl k px).console ++ _ = _
    rw [hcon2]
    rfl
  · rw [print_sys_counts_line h _ X (by omega) hx2, cnt X]
    simp
  · intro hzero i hi1 hi2 hiX hiC
    rw [print_sys_counts_line h _ i hi1 hi2, cnt i, hzero i]
    simp [hiX, hiC]
  · show (syscall h impl (enter pc (after2 h impl k px))).invoked = _
    rw [c1]
    show (syscall h impl (enter px (after1 h impl k))).invoked ++ [fc] = _
    rw [b1]
    show ((syscall h impl k).invoked ++ [fx]) ++ [fc] = _
    rw [a1]
    simp

/-- C10 (witness): from the boot state, the dispatches (count, getpid, count) with the header
`syscall_h`; identifier 11 is `getpid`. -/
theorem count_x_count_witness :
    (bootCalling 22).sys_count_flag = 0
      ∧ (bootCalling 22).sys_count_print_flag = 0
      ∧ syscalls syscall_h 11 = some Handler.sys_getpid
      ∧ (after3 syscall_h countingHandlers (bootCalling 22) (procOf 100 80 11 (memOf []))
            (procOf 100 80 22 (memOf []))).sys_counts 11 = (bootCalling 22).sys_counts 11 + 1
      ∧ (after3 syscall_h countingHandlers (bootCalling 22) (procOf 100 80 11 (memOf []))
            (procOf 100 80 22 (memOf []))).console[11]?
          = some (Cprintf.line (some "getpid") 1)
      ∧ (after3 syscall_h countingHandlers (bootCalling 22) (procOf 100 80 11 (memOf []))
            (procOf 100 80 22 (memOf []))).console[1]?
          = some (Cprintf.line (some "fork") 0)
      ∧ (after3 syscall_h countingHandlers (bootCalling 22) (procOf 100 80 11 (memOf []))
            (procOf 100 80 22 (memOf []))).console.length = 23 :=
  ⟨by decide, by decide, by decide,
    (count_x_count syscall_h countingHandlers (bootCalling 22) (procOf 100 80 11 (memOf []))
      (procOf 100 80 22 (memOf [])) 11 Handler.sys_usermem Handler.sys_getpid
      (by decide) (by decide) (by decide) (by decide) (by decide) (by decide) (by decide)
      (by decide) (by decide) (by decide) (by decide)).1,
    by decide, by decide, by decide⟩

/-! ## Second part: zero-length pointers, failure of the fetches, the tally over time -/

theorem zero_ne_neg_one_int : ¬ ((0 : Int) = -1) := by decide

theorem toU32_lt (x : Int) : toU32 x < 2 ^ 32 := by
  unfold toU32
  omega

theorem argptr_of_fail (p : Proc) (n : Int) (pp : Nat) (size : Int)
    (h : argint p n 0 = (-1, 0)) : argptr p n pp size = (-1, pp) := by
  unfold argptr
  rw [h]
  rfl

theorem argptr_of_pass (p : Proc) (n : Int) (pp : Nat) (size : Int) (v : Int)
    (h : argint p n 0 = (0, v)) :
    argptr p n pp size =
      if toU32 v ≥ p.sz ∨ (toU32 v + toU32 size) % 2 ^ 32 > p.sz then (-1, pp) else (0, toU32 v) := by
  unfold argptr
  rw [h]
  rfl

/-- C15: a request `argptr(n, &p, 0)` goes through the range check: it returns 0 exactly when
`argint(n)` succeeds and the fetched address `a` is below `sz`, the pointer handed out is then
`a`, and every other case returns -1 with `*pp` untouched; in particular `a = sz` is rejected. -/
theorem argptr_zero_size (p : Proc) (n : Int) (pp : Nat) :
    ((argptr p n pp 0).1 = 0 ↔ (argint p n 0).1 = 0 ∧ toU32 (argint p n 0).2 < p.sz)
      ∧ ((argptr p n pp 0).1 = 0 → (argptr p n pp 0).2 = toU32 (argint p n 0).2)
      ∧ ((argptr p n pp 0).1 ≠ 0 → argptr p n pp 0 = (-1, pp))
      ∧ ((argint p n 0).1 = 0 → toU32 (argint p n 0).2 = p.sz → argptr p n pp 0 = (-1, pp))
      ∧ argint (procOf 100 80 0 (memOf [(84, 100), (85, 0), (86, 0), (87, 0)])) 0 0 = (0, 100)
      ∧ argptr (procOf 100 80 0 (memOf [(84, 100), (85, 0), (86, 0), (87, 0)])) 0 7 0 = (-1, 7)
      ∧ argptr (procOf 100 80 0 (memOf [(84, 99), (85, 0), (86, 0), (87, 0)])) 0 7 0 = (0, 99) := by
  refine ⟨?_, ?_, ?_, ?_, by decide, by decide, by decide⟩
  all_goals
    rcases argint_cases p n 0 with h | ⟨v, h⟩
    · rw [argptr_of_fail p n pp 0 h]
      try rw [h]
      try dsimp only
      first
        | exact ⟨fun h0 => absurd h0 neg_one_ne_zero_int, fun h0 => absurd h0.1 neg_one_ne_zero_int⟩
        | exact fun h0 => absurd h0 neg_one_ne_zero_int
        | exact fun _ => rfl
    · rw [argptr_of_pass p n pp 0 v h]
      try rw [h]
      try dsimp only
      have hv : toU32 v < 2 ^ 32 := toU32_lt v
      have h0 : toU32 (0 : Int) = 0 := by decide
      rw [h0, Nat.add_zero, Nat.mod_eq_of_lt hv]
      by_cases hc : toU32 v < p.sz
      · rw [if_neg (by omega)]
        first
          | exact ⟨fun _ => ⟨rfl, hc⟩, fun _ => rfl⟩
          | exact fun _ => rfl
          | exact fun h1 => absurd rfl h1
          | exact fun _ h2 => absurd h2 (by omega)
      · rw [if_pos (by omega)]
        first
          | exact ⟨fun h1 => absurd h1 neg_one_ne_zero_int, fun h1 => absurd h1.2 hc⟩
          | exact fun h1 => absurd h1 neg_one_ne_zero_int
          | exact fun _ => rfl
          | exact fun _ _ => rfl

/-- C16: a dispatch that takes the unknown-call path (call number `≤ 0`, or `≥ NELEM(syscalls)`,
or a null slot) leaves every counter, `sys_count_flag` and `sys_count_print_flag` as they were
and prints no report, whatever the flags hold: the console only gains the unknown-call line. -/
theorem syscall_unknown_frame {Env : Type} (h : SyscallH) (impl : Handlers Env) (k : Kernel Env)
    (hbad : toInt32 k.proc.eax ≤ 0 ∨ toInt32 k.proc.eax ≥ (NELEM_syscalls h : Int)
      ∨ syscalls h (toInt32 k.proc.eax).toNat = none) :
    (syscall h impl k).sys_counts = k.sys_counts
      ∧ (syscall h impl k).sys_count_flag = k.sys_count_flag
      ∧ (syscall h impl k).sys_count_print_flag = k.sys_count_print_flag
      ∧ (syscall h impl k).console
          = k.console ++ [Cprintf.unknown k.proc.pid k.proc.name (toInt32 k.proc.eax)]
      ∧ reports (syscall h impl k).console = reports k.console := by
  rw [syscall_of_none h impl k (lookup_of_unknown h _ hbad)]
  refine ⟨rfl, rfl, rfl, rfl, ?_⟩
  simp [reports]

/-- C16 (witness): call number 23, out of the table of `syscall_h`, with counting on and a report
pending. -/
theorem syscall_unknown_frame_witness :
    toInt32 (enter (procOf 100 80 23 (memOf [])) countingOn).proc.eax
        ≥ (NELEM_syscalls syscall_h : Int)
      ∧ (syscall syscall_h countingHandlers (enter (procOf 100 80 23 (memOf [])) countingOn)).sys_count_flag
          = 1
      ∧ (syscall syscall_h countingHandlers
          (enter (procOf 100 80 23 (memOf [])) countingOn)).sys_count_print_flag = 1
      ∧ reports (syscall syscall_h countingHandlers
          (enter (procOf 100 80 23 (memOf [])) countingOn)).console = 0 :=
  ⟨by decide,
    (syscall_unknown_frame syscall_h countingHandlers
      (enter (procOf 100 80 23 (memOf [])) countingOn) (Or.inr (Or.inl (by decide)))).2.1,
    (syscall_unknown_frame syscall_h countingHandlers
      (enter (procOf 100 80 23 (memOf [])) countingOn) (Or.inr (Or.inl (by decide)))).2.2.1,
    (syscall_unknown_frame syscall_h countingHandlers
      (enter (procOf 100 80 23 (memOf [])) countingOn) (Or.inr (Or.inl (by decide)))).2.2.2.2⟩

/-- C12: for a dispatched call (`0 < num < NELEM(syscalls)`, populated slot) after which counting
is enabled, `sys_counts[num]` has grown by exactly 1, every other counter is unchanged,
`sys_count_print_flag` is 1 and the dispatch has printed nothing. -/
theorem counted_call_effect {Env : Type} (h : SyscallH) (impl : Handlers Env) (k : Kernel Env)
    (f : Handler) (h1 : 0 < toInt32 k.proc.eax) (h2 : toInt32 k.proc.eax < (NELEM_syscalls h : Int))
    (h3 : syscalls h (toInt32 k.proc.eax).toNat = some f)
    (hon : (syscall h impl k).sys_count_flag = 1) :
    (syscall h impl k).sys_counts (toInt32 k.proc.eax).toNat
        = k.sys_counts (toInt32 k.proc.eax).toNat + 1
      ∧ (∀ i, i ≠ (toInt32 k.proc.eax).toNat → (syscall h impl k).sys_counts i = k.sys_counts i)
      ∧ (syscall h impl k).sys_count_print_flag = 1
      ∧ (syscall h impl k).console = k.console
      ∧ reports (syscall h impl k).console = reports k.console := by
  obtain ⟨_, _, _, e4, e5, e6, e7⟩ := syscall_of_some h impl k f (lookup_of_known h _ f h1 h2 h3)
  have hflag : flagAtCall h k = 1 := by rw [← e4]; exact hon
  rw [hflag] at e5 e6 e7
  simp only [if_true] at e5 e6 e7
  rw [e5, e6, e7]
  refine ⟨by simp, ?_, rfl, rfl, rfl⟩
  intro i hi
  simp [hi]

/-- C12 (witness): `getpid` (11) dispatched with counting on, all counters 0 before. -/
theorem counted_call_effect_witness :
    (syscall syscall_h countingHandlers
        (enter (procOf 100 80 11 (memOf [])) countingOn)).sys_count_flag = 1
      ∧ (syscall syscall_h countingHandlers
          (enter (procOf 100 80 11 (memOf [])) countingOn)).sys_counts 11 = 0 + 1
      ∧ (syscall syscall_h countingHandlers
          (enter (procOf 100 80 11 (memOf [])) countingOn)).console = [] :=
  ⟨by decide,
    (counted_call_effect syscall_h countingHandlers (enter (procOf 100 80 11 (memOf [])) countingOn)
      Handler.sys_getpid (by decide) (by decide) (by decide) (by decide)).1,
    (counted_call_effect syscall_h countingHandlers (enter (procOf 100 80 11 (memOf [])) countingOn)
      Handler.sys_getpid (by decide) (by decide) (by decide) (by decide)).2.2.2.1⟩

/-- C18 (counterexample): with `sz = 100` and the bytes `l`, `s` at 98 and 99, `fetchstr(98, &p)`
returns -1 and leaves 98 in `*pp`, which held 7 before the call; `argstr(0, &p)` with the argument
word 98 does the same. -/
theorem fetchstr_failure_overwrites_pp :
    fetchstr (procOf 100 80 0 (memOf [(98, 108), (99, 115), (100, 0)])) 98 7 = (-1, 98)
      ∧ argstr (procOf 100 80 0 (memOf [(84, 98), (85, 0), (86, 0), (87, 0),
          (98, 108), (99, 115), (100, 0)])) 0 7 = (-1, 98)
      ∧ (98 : Nat) ≠ 7 := by
  decide

/-- C18 (amended): when `fetchint`, `argint` or `argptr` returns -1, the output location holds
the value it held before the call.  `fetchstr` returns -1 with `*pp` untouched when the address
is not below `sz`, and `argstr` when `argint` fails or the fetched address is not below `sz`.
When the address `a` is below `sz` and no byte in `[a, sz)` is zero, `fetchstr` and `argstr`
return -1 with `*pp` set to `a`; conversely a failure of either with `a` below `sz` (and, for
`argstr`, `argint` successful) leaves `*pp = a` and means that no byte in `[a, sz)` is zero. -/
theorem fetch_failure_output (p : Proc) (a : Nat) (n : Int) (ip : Int) (pp : Nat) (size : Int) :
    ((fetchint p a ip).1 = -1 → (fetchint p a ip).2 = ip)
      ∧ ((argint p n ip).1 = -1 → (argint p n ip).2 = ip)
      ∧ ((argptr p n pp size).1 = -1 → (argptr p n pp size).2 = pp)
      ∧ ((fetchstr p a pp).1 = -1 → p.sz ≤ a → (fetchstr p a pp).2 = pp)
      ∧ ((fetchstr p a pp).1 = -1 → a < p.sz →
          (fetchstr p a pp).2 = a ∧ ∀ j, a ≤ j → j < p.sz → p.mem j ≠ 0)
      ∧ ((argstr p n pp).1 = -1 →
          (argstr p n pp).2 = pp
            ∨ ((argint p n 0).1 = 0 ∧ toU32 (argint p n 0).2 < p.sz
                ∧ (argstr p n pp).2 = toU32 (argint p n 0).2
                ∧ ∀ j, toU32 (argint p n 0).2 ≤ j → j < p.sz → p.mem j ≠ 0))
      ∧ (a < p.sz → (∀ j, a ≤ j → j < p.sz → p.mem j ≠ 0) → fetchstr p a pp = (-1, a))
      ∧ (p.sz ≤ a → fetchstr p a pp = (-1, pp))
      ∧ ((argint p n 0).1 ≠ 0 → argstr p n pp = (-1, pp))
      ∧ ((argint p n 0).1 = 0 → p.sz ≤ toU32 (argint p n 0).2 → argstr p n pp = (-1, pp))
      ∧ ((argint p n 0).1 = 0 → toU32 (argint p n 0).2 < p.sz →
          (∀ j, toU32 (argint p n 0).2 ≤ j → j < p.sz → p.mem j ≠ 0) →
          argstr p n pp = (-1, toU32 (argint p n 0).2))
      ∧ ((argstr p n pp).1 = -1 → (argint p n 0).1 = 0 → toU32 (argint p n 0).2 < p.sz →
          (argstr p n pp).2 = toU32 (argint p n 0).2
            ∧ ∀ j, toU32 (argint p n 0).2 ≤ j → j < p.sz → p.mem j ≠ 0) := by
  have hunterm : ∀ b : Nat, b < p.sz → (∀ j, b ≤ j → j < p.sz → p.mem j ≠ 0) →
      fetchstr p b pp = (-1, b) := by
    intro b hlt hnz
    rcases fetchstr_cases p b pp with ⟨hge, _⟩ | ⟨_, _, he⟩ | ⟨_, k, hk, hz, _, _⟩
    · omega
    · exact he
    · exact absurd hz (hnz (b + k) (by omega) hk)
  have hout : ∀ b : Nat, p.sz ≤ b → fetchstr p b pp = (-1, pp) := by
    intro b hge
    unfold fetchstr
    rw [if_pos hge]
  have hstr : ∀ b : Nat, (fetchstr p b pp).1 = -1 →
      (p.sz ≤ b ∧ (fetchstr p b pp).2 = pp)
        ∨ (b < p.sz ∧ (fetchstr p b pp).2 = b ∧ ∀ j, b ≤ j → j < p.sz → p.mem j ≠ 0) := by
    intro b hb
    rcases fetchstr_cases p b pp with ⟨hge, he⟩ | ⟨hlt, hnz, he⟩ | ⟨hlt, k, _, _, _, he⟩
    · left; rw [he]; exact ⟨hge, rfl⟩
    · right; rw [he]; exact ⟨hlt, rfl, hnz⟩
    · rw [he] at hb
      have : (k : Int) = -1 := hb
      omega
  refine ⟨?_, ?_, ?_, ?_, ?_, ?_, hunterm a, hout a, ?_, ?_, ?_, ?_⟩
  · by_cases hc : a ≥ p.sz ∨ (a + 4) % 2 ^ 32 > p.sz
    · rw [fetchint_of_fail p a ip hc]; exact fun _ => rfl
    · rw [fetchint_of_pass p a ip hc]; intro h0; exact absurd h0 zero_ne_neg_one_int
  · rcases argint_cases p n ip with h | ⟨v, h⟩
    · rw [h]; exact fun _ => rfl
    · rw [h]; intro h0; exact absurd h0 zero_ne_neg_one_int
  · rcases argint_cases p n 0 with h | ⟨v, h⟩
    · rw [argptr_of_fail p n pp size h]; exact fun _ => rfl
    · rw [argptr_of_pass p n pp size v h]
      by_cases hc : toU32 v ≥ p.sz ∨ (toU32 v + toU32 size) % 2 ^ 32 > p.sz
      · rw [if_pos hc]; exact fun _ => rfl
      · rw [if_neg hc]; intro h0; exact absurd h0 zero_ne_neg_one_int
  · intro hf hge
    rcases hstr a hf with ⟨_, h2⟩ | ⟨h1, _⟩
    · exact h2
    · omega
  · intro hf hlt
    rcases hstr a hf with ⟨h1, _⟩ | ⟨_, h2⟩
    · omega
    · exact h2
  · rcases argint_cases p n 0 with h | ⟨v, h⟩
    · rw [argstr_of_fail p n pp h]; exact fun _ => Or.inl rfl
    · rw [argstr_of_pass p n pp v h, h]
      intro hf
      rcases hstr (toU32 v) hf with ⟨_, h2⟩ | ⟨h1, h2, h3⟩
      · exact Or.inl h2
      · exact Or.inr ⟨rfl, h1, h2, h3⟩
  · intro hne
    rcases argint_cases p n 0 with h | ⟨v, h⟩
    · exact argstr_of_fail p n pp h
    · rw [h] at hne
      exact absurd rfl hne
  · rcases argint_cases p n 0 with h | ⟨v, h⟩
    · intro _ _
      exact argstr_of_fail p n pp h
    · rw [argstr_of_pass p n pp v h, h]
      intro _ hge
      exact hout (toU32 v) hge
  · rcases argint_cases p n 0 with h | ⟨v, h⟩
    · rw [h]
      intro h0
      exact absurd h0 neg_one_ne_zero_int
    · rw [argstr_of_pass p n pp v h, h]
      intro _ hlt hnz
      exact hunterm (toU32 v) hlt hnz
  · rcases argint_cases p n 0 with h | ⟨v, h⟩
    · rw [h]
      intro _ h0
      exact absurd h0 neg_one_ne_zero_int
    · rw [argstr_of_pass p n pp v h, h]
      intro hf _ hlt
      rcases hstr (toU32 v) hf with ⟨hge, _⟩ | ⟨_, h2, h3⟩
      · exact absurd hlt (by
          show ¬ (toU32 v < p.sz)
          omega)
      · exact ⟨h2, h3⟩

/-- C18 (witness): the amended statement applied to the unterminated string at 98, for `fetchstr`
and for `argstr` with the argument word 98. -/
theorem fetch_failure_output_witness :
    (fetchstr (procOf 100 80 0 (memOf [(98, 108), (99, 115), (100, 0)])) 98 7).1 = -1
      ∧ (fetchstr (procOf 100 80 0 (memOf [(98, 108), (99, 115), (100, 0)])) 98 7).2 = 98
      ∧ ((fetchint (procOf 100 80 0 (memOf [(98, 108), (99, 115), (100, 0)])) 98 5).1 = -1 →
          (fetchint (procOf 100 80 0 (memOf [(98, 108), (99, 115), (100, 0)])) 98 5).2 = 5)
      ∧ (argint (procOf 100 80 0 (memOf [(84, 98), (85, 0), (86, 0), (87, 0),
          (98, 108), (99, 115), (100, 0)])) 0 0).1 = 0
      ∧ (argstr (procOf 100 80 0 (memOf [(84, 98), (85, 0), (86, 0), (87, 0),
          (98, 108), (99, 115), (100, 0)])) 0 7).1 = -1
      ∧ (argstr (procOf 100 80 0 (memOf [(84, 98), (85, 0), (86, 0), (87, 0),
          (98, 108), (99, 115), (100, 0)])) 0 7).2
        = toU32 (argint (procOf 100 80 0 (memOf [(84, 98), (85, 0), (86, 0), (87, 0),
          (98, 108), (99, 115), (100, 0)])) 0 0).2
      ∧ toU32 (argint (procOf 100 80 0 (memOf [(84, 98), (85, 0), (86, 0), (87, 0),
          (98, 108), (99, 115), (100, 0)])) 0 0).2 = 98 :=
  ⟨by decide,
    ((fetch_failure_output (procOf 100 80 0 (memOf [(98, 108), (99, 115), (100, 0)])) 98 0 5 7
      0).2.2.2.2.1 (by decide) (by decide)).1,
    (fetch_failure_output (procOf 100 80 0 (memOf [(98, 108), (99, 115), (100, 0)])) 98 0 5 7
      0).1,
    by decide, by decide,
    ((fetch_failure_output (procOf 100 80 0 (memOf [(84, 98), (85, 0), (86, 0), (87, 0),
      (98, 108), (99, 115), (100, 0)])) 98 0 5 7 0).2.2.2.2.2.2.2.2.2.2.2
      (by decide) (by decide) (by decide)).1,
    by decide⟩

/-! ### Reports and the two flags over successive calls -/

theorem reports_append (a b : List Cprintf) : reports (a ++ b) = reports a + reports b := by
  simp [reports]

theorem reports_print_sys_counts (h : SyscallH) (c : Nat → Int) :
    reports (print_sys_counts h c) = 1 := by
  simp [reports, print_sys_counts, List.count_cons, List.count_eq_zero]

theorem lookup_some_bounds (h : SyscallH) (num : Int) (f : Handler)
    (hl : lookup h num = some f) : 0 < num ∧ num < (NELEM_syscalls h : Int) := by
  unfold lookup at hl
  by_cases hc : num > 0 ∧ num < (NELEM_syscalls h : Int)
  · exact hc
  · rw [if_neg hc] at hl
    exact absurd hl (by simp)

/-- One call from a state in which the two flags are both 0 or both 1: the flags are again both 0
or both 1, and the console gains one report exactly when the call is a toggle-off dispatch. -/
theorem step_tally {Env : Type} (h : SyscallH) (impl : Handlers Env) (k : Kernel Env)
    (hinv : (k.sys_count_flag = 0 ∧ k.sys_count_print_flag = 0)
      ∨ (k.sys_count_flag = 1 ∧ k.sys_count_print_flag = 1)) :
    (((syscall h impl k).sys_count_flag = 0 ∧ (syscall h impl k).sys_count_print_flag = 0)
        ∨ ((syscall h impl k).sys_count_flag = 1 ∧ (syscall h impl k).sys_count_print_flag = 1))
      ∧ reports (syscall h impl k).console
          = reports k.console + (if isToggleOff h k.proc k then 1 else 0) := by
  cases hl : lookup h (toInt32 k.proc.eax) with
  | none =>
    rw [syscall_of_none h impl k hl]
    refine ⟨hinv, ?_⟩
    simp [reports, isToggleOff, hl]
  | some f =>
    obtain ⟨_, _, _, e4, _, e6, e7⟩ := syscall_of_some h impl k f hl
    rw [e4, e6, e7]
    by_cases hnum : toInt32 k.proc.eax = (h.SYS_count : Int)
    · rcases hinv with ⟨hf, hp⟩ | ⟨hf, hp⟩
      · have hflag : flagAtCall h k = 1 := by
          unfold flagAtCall; rw [if_pos hnum, hf]; rfl
        rw [hflag]
        simp [isToggleOff, hl, hnum, hf]
      · have hflag : flagAtCall h k = 0 := by
          unfold flagAtCall; rw [if_pos hnum, hf]; rfl
        have hl2 : lookup h (h.SYS_count : Int) = some f := by rw [← hnum]; exact hl
        rw [hflag]
        simp [isToggleOff, hl2, hnum, hf, hp, reports_append, reports_print_sys_counts]
    · have hflag : flagAtCall h k = k.sys_count_flag := by
        unfold flagAtCall; rw [if_neg hnum]
      rw [hflag]
      rcases hinv with ⟨hf, hp⟩ | ⟨hf, hp⟩
      · simp [isToggleOff, hl, hnum, hf, hp]
      · simp [isToggleOff, hl, hnum, hf]

theorem run_tally {Env : Type} (h : SyscallH) (impl : Handlers Env) :
    ∀ (ps : List Proc) (k : Kernel Env),
      ((k.sys_count_flag = 0 ∧ k.sys_count_print_flag = 0)
        ∨ (k.sys_count_flag = 1 ∧ k.sys_count_print_flag = 1)) →
      (((run h impl ps k).sys_count_flag = 0 ∧ (run h impl ps k).sys_count_print_flag = 0)
          ∨ ((run h impl ps k).sys_count_flag = 1 ∧ (run h impl ps k).sys_count_print_flag = 1))
        ∧ reports (run h impl ps k).console = reports k.console + toggleOffs h impl ps k := by
  intro ps
  induction ps with
  | nil =>
    intro k hinv
    exact ⟨hinv, rfl⟩
  | cons p ps ih =>
    intro k hinv
    obtain ⟨s1, s2⟩ := step_tally h impl (enter p k) hinv
    obtain ⟨r1, r2⟩ := ih (syscall h impl (enter p k)) s1
    refine ⟨r1, ?_⟩
    show reports (run h impl ps (syscall h impl (enter p k))).console
      = reports k.console
        + ((if isToggleOff h p k then 1 else 0) + toggleOffs h impl ps (syscall h impl (enter p k)))
    rw [r2, s2]
    show reports k.console + (if isToggleOff h p k then 1 else 0) + _ = _
    omega

/-- No report is printed by a call made with both flags 0, and the counters are untouched when
that call does not carry the count identifier. -/
theorem step_idle {Env : Type} (h : SyscallH) (impl : Handlers Env) (k : Kernel Env)
    (hf : k.sys_count_flag = 0) (hp : k.sys_count_print_flag = 0) :
    reports (syscall h impl k).console = reports k.console
      ∧ (toInt32 k.proc.eax ≠ (h.SYS_count : Int) → (syscall h impl k).sys_counts = k.sys_counts) := by
  constructor
  · have hs := (step_tally h impl k (Or.inl ⟨hf, hp⟩)).2
    rw [hs]
    simp [isToggleOff, hf]
  · intro hnum
    cases hl : lookup h (toInt32 k.proc.eax) with
    | none => rw [syscall_of_none h impl k hl]
    | some f =>
      obtain ⟨_, _, _, _, e5, _, _⟩ := syscall_of_some h impl k f hl
      have hflag : flagAtCall h k = 0 := by
        unfold flagAtCall; rw [if_neg hnum]; exact hf
      rw [e5, hflag]
      simp

theorem step_toggle_on {Env : Type} (h : SyscallH) (impl : Handlers Env) (k : Kernel Env)
    (f : Handler) (hl : lookup h (toInt32 k.proc.eax) = some f)
    (hnum : toInt32 k.proc.eax = (h.SYS_count : Int)) (hoff : k.sys_count_flag = 0) :
    (syscall h impl k).sys_count_flag = 1
      ∧ (syscall h impl k).sys_count_print_flag = 1
      ∧ (syscall h impl k).console = k.console
      ∧ (syscall h impl k).sys_counts
          = fun i => if i = h.SYS_count then k.sys_counts i + 1 else k.sys_counts i := by
  obtain ⟨_, _, _, e4, e5, e6, e7⟩ := syscall_of_some h impl k f hl
  have hflag : flagAtCall h k = 1 := by
    unfold flagAtCall; rw [if_pos hnum, hoff]; rfl
  rw [hflag] at e4 e5 e6 e7
  rw [hnum, Int.toNat_ofNat] at e5
  simp only [if_true] at e5 e6 e7
  exact ⟨e4, e6, e7, e5⟩

theorem step_counted {Env : Type} (h : SyscallH) (impl : Handlers Env) (k : Kernel Env)
    (f : Handler) (X : Nat) (hl : lookup h (toInt32 k.proc.eax) = some f)
    (hX : toInt32 k.proc.eax = (X : Int)) (hne : X ≠ h.SYS_count) (hon : k.sys_count_flag = 1) :
    (syscall h impl k).sys_count_flag = 1
      ∧ (syscall h impl k).sys_count_print_flag = 1
      ∧ (syscall h impl k).console = k.console
      ∧ (syscall h impl k).sys_counts
          = fun i => if i = X then k.sys_counts i + 1 else k.sys_counts i := by
  obtain ⟨_, _, _, e4, e5, e6, e7⟩ := syscall_of_some h impl k f hl
  have hnum : ¬ (toInt32 k.proc.eax = (h.SYS_count : Int)) := by rw [hX]; omega
  have hflag : flagAtCall h k = 1 := by
    unfold flagAtCall; rw [if_neg hnum, hon]
  rw [hflag] at e4 e5 e6 e7
  rw [hX, Int.toNat_ofNat] at e5
  simp only [if_true] at e5 e6 e7
  exact ⟨e4, e6, e7, e5⟩

theorem step_toggle_off {Env : Type} (h : SyscallH) (impl : Handlers Env) (k : Kernel Env)
    (f : Handler) (hl : lookup h (toInt32 k.proc.eax) = some f)
    (hnum : toInt32 k.proc.eax = (h.SYS_count : Int)) (hon : k.sys_count_flag = 1)
    (hp : k.sys_count_print_flag ≠ 0) :
    (syscall h impl k).sys_count_flag = 0
      ∧ (syscall h impl k).sys_count_print_flag = 0
      ∧ (syscall h impl k).console = k.console ++ print_sys_counts h k.sys_counts
      ∧ (syscall h impl k).sys_counts = k.sys_counts := by
  obtain ⟨_, _, _, e4, e5, e6, e7⟩ := syscall_of_some h impl k f hl
  have hflag : flagAtCall h k = 0 := by
    unfold flagAtCall; rw [if_pos hnum, hon]; rfl
  rw [hflag] at e4 e5 e6 e7
  simp only [if_neg (show ¬ ((0 : Int) = 1) by decide), if_pos hp] at e5 e6 e7
  exact ⟨e4, e6, e7, e5⟩

/-- C11 (counterexample): after one full on/off cycle from boot (two dispatches of the count
identifier) counting is off and the one report has been flushed, with `sys_counts[22] = 1`; a
further dispatch of the count identifier, made in that state, prints no report but leaves
`sys_counts[22] = 2`: it changed a counter. -/
theorem idle_count_dispatch_changes_counter :
    (run syscall_h countingHandlers
        [procOf 100 80 22 (memOf []), procOf 100 80 22 (memOf [])] (bootCalling 0)).sys_count_flag = 0
      ∧ (run syscall_h countingHandlers
          [procOf 100 80 22 (memOf []), procOf 100 80 22 (memOf [])]
          (bootCalling 0)).sys_count_print_flag = 0
      ∧ reports (run syscall_h countingHandlers
          [procOf 100 80 22 (memOf []), procOf 100 80 22 (memOf [])] (bootCalling 0)).console = 1
      ∧ (run syscall_h countingHandlers
          [procOf 100 80 22 (memOf []), procOf 100 80 22 (memOf [])] (bootCalling 0)).sys_counts 22 = 1
      ∧ reports (run syscall_h countingHandlers
          [procOf 100 80 22 (memOf []), procOf 100 80 22 (memOf []), procOf 100 80 22 (memOf [])]
          (bootCalling 0)).console = 1
      ∧ (run syscall_h countingHandlers
          [procOf 100 80 22 (memOf []), procOf 100 80 22 (memOf []), procOf 100 80 22 (memOf [])]
          (bootCalling 0)).sys_counts 22 = 2 := by
  decide

/-- C11 (amended): over any sequence of dispatches from boot, the number of reports printed equals
the number of toggle-off dispatches.  A dispatch made with counting off and no report pending
prints no report; it changes no counter unless it carries the count identifier, and a dispatch
of the count identifier in that state adds 1 to the count identifier's own counter. -/
theorem reports_eq_toggle_offs {Env : Type} (h : SyscallH) (impl : Handlers Env)
    (ps : List Proc) (p : Proc) (e : Env) :
    reports (run h impl ps (boot p e)).console = toggleOffs h impl ps (boot p e)
      ∧ (∀ k : Kernel Env, k.sys_count_flag = 0 → k.sys_count_print_flag = 0 →
          reports (syscall h impl k).console = reports k.console
            ∧ (toInt32 k.proc.eax ≠ (h.SYS_count : Int) →
                (syscall h impl k).sys_counts = k.sys_counts)
            ∧ (toInt32 k.proc.eax = (h.SYS_count : Int) →
                (lookup h (h.SYS_count : Int)).isSome →
                (syscall h impl k).sys_counts h.SYS_count = k.sys_counts h.SYS_count + 1)) := by
  constructor
  · have hr := (run_tally h impl ps (boot p e) (Or.inl ⟨rfl, rfl⟩)).2
    rw [hr]
    show reports [] + _ = _
    simp [reports]
  · intro k hf hp
    refine ⟨(step_idle h impl k hf hp).1, (step_idle h impl k hf hp).2, ?_⟩
    intro hnum hsome
    obtain ⟨f, hfl⟩ := Option.isSome_iff_exists.mp hsome
    have hl : lookup h (toInt32 k.proc.eax) = some f := by rw [hnum]; exact hfl
    rw [(step_toggle_on h impl k f hl hnum hf).2.2.2]
    simp

/-- C11 (witness): the calls of `testsyscount` seen from one process (count, getpid, count) and
then an idle `getpid` give one report, and the amended statement applies to the flushed state. -/
theorem reports_eq_toggle_offs_witness :
    toggleOffs syscall_h countingHandlers
        [procOf 100 80 22 (memOf []), procOf 100 80 11 (memOf []), procOf 100 80 22 (memOf []),
          procOf 100 80 11 (memOf [])] (boot (procOf 100 80 0 (memOf [])) 0) = 1
      ∧ reports (run syscall_h countingHandlers
          [procOf 100 80 22 (memOf []), procOf 100 80 11 (memOf []), procOf 100 80 22 (memOf []),
            procOf 100 80 11 (memOf [])] (boot (procOf 100 80 0 (memOf [])) 0)).console = 1
      ∧ reports (syscall syscall_h countingHandlers (bootCalling 11)).console
          = reports (bootCalling 11).console :=
  ⟨by decide,
    (reports_eq_toggle_offs syscall_h countingHandlers
      [procOf 100 80 22 (memOf []), procOf 100 80 11 (memOf []), procOf 100 80 22 (memOf []),
        procOf 100 80 11 (memOf [])] (procOf 100 80 0 (memOf [])) 0).1.trans (by decide),
    ((reports_eq_toggle_offs syscall_h countingHandlers [] (procOf 100 80 0 (memOf [])) 0).2
      (bootCalling 11) (by decide) (by decide)).1⟩

/-- C17: in every state reached from boot by complete dispatches, `sys_count_print_flag` equals
`sys_count_flag`; a further dispatch that does not carry the count identifier prints no report,
so a dispatch that prints a report carries the count identifier. -/
theorem print_flag_eq_flag {Env : Type} (h : SyscallH) (impl : Handlers Env)
    (ps : List Proc) (p : Proc) (e : Env) :
    (run h impl ps (boot p e)).sys_count_print_flag = (run h impl ps (boot p e)).sys_count_flag
      ∧ (∀ q : Proc, toInt32 q.eax ≠ (h.SYS_count : Int) →
          reports (syscall h impl (enter q (run h impl ps (boot p e)))).console
            = reports (run h impl ps (boot p e)).console)
      ∧ (∀ q : Proc,
          reports (syscall h impl (enter q (run h impl ps (boot p e)))).console
            ≠ reports (run h impl ps (boot p e)).console →
          toInt32 q.eax = (h.SYS_count : Int)) := by
  have hinv := (run_tally h impl ps (boot p e) (Or.inl ⟨rfl, rfl⟩)).1
  have hstep : ∀ q : Proc, toInt32 q.eax ≠ (h.SYS_count : Int) →
      reports (syscall h impl (enter q (run h impl ps (boot p e)))).console
        = reports (run h impl ps (boot p e)).console := by
    intro q hq
    have hs := (step_tally h impl (enter q (run h impl ps (boot p e))) hinv).2
    rw [hs]
    have hq2 : ¬ (toInt32 (enter q (run h impl ps (boot p e))).proc.eax = (h.SYS_count : Int)) := hq
    simp [isToggleOff, hq2]
    rfl
  refine ⟨?_, hstep, ?_⟩
  · rcases hinv with ⟨h1, h2⟩ | ⟨h1, h2⟩
    · rw [h1, h2]
    · rw [h1, h2]
  · intro q hne
    by_contra hq
    exact hne (hstep q hq)

/-- C17 (witness): after (count, getpid) from boot both flags are 1, and a further `getpid`
prints no report. -/
theorem print_flag_eq_flag_witness :
    (run syscall_h countingHandlers [procOf 100 80 22 (memOf []), procOf 100 80 11 (memOf [])]
        (boot (procOf 100 80 0 (memOf [])) 0)).sys_count_flag = 1
      ∧ (run syscall_h countingHandlers [procOf 100 80 22 (memOf []), procOf 100 80 11 (memOf [])]
          (boot (procOf 100 80 0 (memOf [])) 0)).sys_count_print_flag
        = (run syscall_h countingHandlers [procOf 100 80 22 (memOf []), procOf 100 80 11 (memOf [])]
          (boot (procOf 100 80 0 (memOf [])) 0)).sys_count_flag
      ∧ reports (syscall syscall_h countingHandlers (enter (procOf 100 80 11 (memOf []))
          (run syscall_h countingHandlers [procOf 100 80 22 (memOf []), procOf 100 80 11 (memOf [])]
            (boot (procOf 100 80 0 (memOf [])) 0)))).console
        = reports (run syscall_h countingHandlers
            [procOf 100 80 22 (memOf []), procOf 100 80 11 (memOf [])]
            (boot (procOf 100 80 0 (memOf [])) 0)).console :=
  ⟨by decide,
    (print_flag_eq_flag syscall_h countingHandlers
      [procOf 100 80 22 (memOf []), procOf 100 80 11 (memOf [])] (procOf 100 80 0 (memOf [])) 0).1,
    (print_flag_eq_flag syscall_h countingHandlers
      [procOf 100 80 22 (memOf []), procOf 100 80 11 (memOf [])] (procOf 100 80 0 (memOf [])) 0).2.1
      (procOf 100 80 11 (memOf [])) (by decide)⟩

/-! ### The counters over successive calls -/

theorem step_counts_le {Env : Type} (h : SyscallH) (impl : Handlers Env) (k : Kernel Env)
    (i : Nat) : k.sys_counts i ≤ (syscall h impl k).sys_counts i := by
  cases hl : lookup h (toInt32 k.proc.eax) with
  | none => rw [syscall_of_none h impl k hl]
  | some f =>
    obtain ⟨_, _, _, _, e5, _, _⟩ := syscall_of_some h impl k f hl
    rw [e5]
    by_cases hflag : flagAtCall h k = 1
    · rw [if_pos hflag]
      by_cases hi : i = (toInt32 k.proc.eax).toNat
      · simp [hi]
      · simp [hi]
    · rw [if_neg hflag]

theorem run_counts_le {Env : Type} (h : SyscallH) (impl : Handlers Env) (i : Nat) :
    ∀ (ps : List Proc) (k : Kernel Env), k.sys_counts i ≤ (run h impl ps k).sys_counts i := by
  intro ps
  induction ps with
  | nil => intro k; exact Int.le_refl _
  | cons p ps ih =>
    intro k
    exact Int.le_trans (step_counts_le h impl (enter p k) i) (ih (syscall h impl (enter p k)))

theorem step_report_keeps_counts {Env : Type} (h : SyscallH) (impl : Handlers Env)
    (k : Kernel Env) (hr : reports (syscall h impl k).console ≠ reports k.console) :
    (syscall h impl k).sys_counts = k.sys_counts := by
  cases hl : lookup h (toInt32 k.proc.eax) with
  | none => rw [syscall_of_none h impl k hl]
  | some f =>
    obtain ⟨_, _, _, _, e5, _, e7⟩ := syscall_of_some h impl k f hl
    by_cases hflag : flagAtCall h k = 1
    · rw [e7, if_pos hflag] at hr
      exact absurd rfl hr
    · rw [e5, if_neg hflag]

/-- Two successive on/off cycles (count, X, count, count, X, count) from a state with counting
off: each cycle prints one report, and the line of X in the second report shows a count one
higher than in the first. -/
theorem two_cycles {Env : Type} (h : SyscallH) (impl : Handlers Env) (k : Kernel Env)
    (c1 x1 c2 c3 x2 c4 : Proc) (X : Nat) (fc fx : Handler)
    (hoff : k.sys_count_flag = 0)
    (hc : lookup h (h.SYS_count : Int) = some fc) (hx : lookup h (X : Int) = some fx)
    (hne : X ≠ h.SYS_count)
    (e1 : toInt32 c1.eax = (h.SYS_count : Int)) (e2 : toInt32 x1.eax = (X : Int))
    (e3 : toInt32 c2.eax = (h.SYS_count : Int)) (e4 : toInt32 c3.eax = (h.SYS_count : Int))
    (e5 : toInt32 x2.eax = (X : Int)) (e6 : toInt32 c4.eax = (h.SYS_count : Int)) :
    (run h impl [c1, x1, c2, c3, x2, c4] k).console
        = k.console ++ print_sys_counts h (run h impl [c1, x1, c2] k).sys_counts
            ++ print_sys_counts h (run h impl [c1, x1, c2, c3, x2, c4] k).sys_counts
      ∧ (run h impl [c1, x1, c2] k).sys_counts X = k.sys_counts X + 1
      ∧ (run h impl [c1, x1, c2, c3, x2, c4] k).sys_counts X = k.sys_counts X + 2 := by
  have hX : 1 ≤ X ∧ X < NELEM_syscalls h := by
    have := lookup_some_bounds h _ fx hx
    omega
  obtain ⟨a1, a2, a3, a4⟩ := step_toggle_on h impl (enter c1 k) fc (by
    show lookup h (toInt32 c1.eax) = some fc
    rw [e1]; exact hc) e1 hoff
  obtain ⟨b1, b2, b3, b4⟩ := step_counted h impl (enter x1 (syscall h impl (enter c1 k))) fx X (by
    show lookup h (toInt32 x1.eax) = some fx
    rw [e2]; exact hx) e2 hne a1
  obtain ⟨d1, d2, d3, d4⟩ := step_toggle_off h impl
    (enter c2 (syscall h impl (enter x1 (syscall h impl (enter c1 k))))) fc (by
      show lookup h (toInt32 c2.eax) = some fc
      rw [e3]; exact hc) e3 b1 (by
      show (syscall h impl (enter x1 (syscall h impl (enter c1 k)))).sys_count_print_flag ≠ 0
      rw [b2]; decide)
  have r3 : run h impl [c1, x1, c2] k
      = syscall h impl (enter c2 (syscall h impl (enter x1 (syscall h impl (enter c1 k))))) := rfl
  have cnt3 : ∀ i, (run h impl [c1, x1, c2] k).sys_counts i
      = if i = X then k.sys_counts i + 1
        else if i = h.SYS_count then k.sys_counts i + 1 else k.sys_counts i := by
    intro i
    rw [r3, d4]
    show (syscall h impl (enter x1 (syscall h impl (enter c1 k)))).sys_counts i = _
    rw [b4]
    show (if i = X then (syscall h impl (enter c1 k)).sys_counts i + 1
      else (syscall h impl (enter c1 k)).sys_counts i) = _
    rw [a4]
    show (if i = X then (if i = h.SYS_count then k.sys_counts i + 1 else k.sys_counts i) + 1
      else (if i = h.SYS_count then k.sys_counts i + 1 else k.sys_counts i)) = _
    by_cases hi : i = X
    · subst hi
      simp [hne]
    · simp [hi]
  have con3 : (run h impl [c1, x1, c2] k).console
      = k.console ++ print_sys_counts h (run h impl [c1, x1, c2] k).sys_counts := by
    rw [r3, d4, d3]
    show (syscall h impl (enter x1 (syscall h impl (enter c1 k)))).console ++ _ = _
    rw [b3]
    show (syscall h impl (enter c1 k)).console ++ _ = _
    rw [a3]
    rfl
  have off3 : (run h impl [c1, x1, c2] k).sys_count_flag = 0 := by rw [r3]; exact d1
  -- the second cycle starts from the state the first one ends in
  obtain ⟨a1', _, a3', a4'⟩ := step_toggle_on h impl (enter c3 (run h impl [c1, x1, c2] k)) fc (by
    show lookup h (toInt32 c3.eax) = some fc
    rw [e4]; exact hc) e4 off3
  obtain ⟨b1', b2', b3', b4'⟩ := step_counted h impl
    (enter x2 (syscall h impl (enter c3 (run h impl [c1, x1, c2] k)))) fx X (by
      show lookup h (toInt32 x2.eax) = some fx
      rw [e5]; exact hx) e5 hne a1'
  obtain ⟨_, _, d3', d4'⟩ := step_toggle_off h impl
    (enter c4 (syscall h impl (enter x2 (syscall h impl (enter c3 (run h impl [c1, x1, c2] k))))))
    fc (by
      show lookup h (toInt32 c4.eax) = some fc
      rw [e6]; exact hc) e6 b1' (by
      show (syscall h impl
        (enter x2 (syscall h impl (enter c3 (run h impl [c1, x1, c2] k))))).sys_count_print_flag ≠ 0
      rw [b2']; decide)
  have r6 : run h impl [c1, x1, c2, c3, x2, c4] k
      = syscall h impl (enter c4 (syscall h impl (enter x2
          (syscall h impl (enter c3 (run h impl [c1, x1, c2] k)))))) := rfl
  have cnt6 : (run h impl [c1, x1, c2, c3, x2, c4] k).sys_counts X = k.sys_counts X + 2 := by
    rw [r6, d4']
    show (syscall h impl (enter x2
      (syscall h impl (enter c3 (run h impl [c1, x1, c2] k))))).sys_counts X = _
    rw [b4']
    show (if X = X then (syscall h impl (enter c3 (run h impl [c1, x1, c2] k))).sys_counts X + 1
      else (syscall h impl (enter c3 (run h impl [c1, x1, c2] k))).sys_counts X) = _
    rw [if_pos rfl, a4']
    show (if X = h.SYS_count then (run h impl [c1, x1, c2] k).sys_counts X + 1
      else (run h impl [c1, x1, c2] k).sys_counts X) + 1 = _
    rw [if_neg hne, cnt3 X, if_pos rfl]
    omega
  refine ⟨?_, ?_, cnt6⟩
  · rw [r6, d4', d3']
    show (syscall h impl (enter x2
      (syscall h impl (enter c3 (run h impl [c1, x1, c2] k))))).console ++ _ = _
    rw [b3']
    show (syscall h impl (enter c3 (run h impl [c1, x1, c2] k))).console ++ _ = _
    rw [a3']
    show (run h impl [c1, x1, c2] k).console ++ _ = _
    rw [con3]
  · rw [cnt3 X, if_pos rfl]

/-- C14: a dispatch that prints a report leaves every counter as it was; no dispatch lowers a
counter, so over any sequence of dispatches every `sys_counts[i]` is non-decreasing; and when X is
called once in each of two successive on/off cycles, the line of X in the second report shows a
count 1 higher than in the first. -/
theorem counters_accumulate {Env : Type} (h : SyscallH) (impl : Handlers Env) (k : Kernel Env) :
    (reports (syscall h impl k).console ≠ reports k.console →
        (syscall h impl k).sys_counts = k.sys_counts)
      ∧ (∀ i, k.sys_counts i ≤ (syscall h impl k).sys_counts i)
      ∧ (∀ (ps : List Proc) (i : Nat), k.sys_counts i ≤ (run h impl ps k).sys_counts i)
      ∧ (∀ (c1 x1 c2 c3 x2 c4 : Proc) (X : Nat) (fc fx : Handler),
          k.sys_count_flag = 0 →
          0 < h.SYS_count → h.SYS_count < NELEM_syscalls h → syscalls h h.SYS_count = some fc →
          0 < X → X < NELEM_syscalls h → syscalls h X = some fx → X ≠ h.SYS_count →
          toInt32 c1.eax = (h.SYS_count : Int) → toInt32 x1.eax = (X : Int) →
          toInt32 c2.eax = (h.SYS_count : Int) → toInt32 c3.eax = (h.SYS_count : Int) →
          toInt32 x2.eax = (X : Int) → toInt32 c4.eax = (h.SYS_count : Int) →
          (run h impl [c1, x1, c2, c3, x2, c4] k).console
              = k.console ++ print_sys_counts h (run h impl [c1, x1, c2] k).sys_counts
                  ++ print_sys_counts h (run h impl [c1, x1, c2, c3, x2, c4] k).sys_counts
            ∧ (print_sys_counts h (run h impl [c1, x1, c2] k).sys_counts)[X]?
                = some (Cprintf.line (syscallnames X) (k.sys_counts X + 1))
            ∧ (print_sys_counts h (run h impl [c1, x1, c2, c3, x2, c4] k).sys_counts)[X]?
                = some (Cprintf.line (syscallnames X) (k.sys_counts X + 1 + 1))) := by
  refine ⟨step_report_keeps_counts h impl k, step_counts_le h impl k,
    fun ps i => run_counts_le h impl i ps k, ?_⟩
  intro c1 x1 c2 c3 x2 c4 X fc fx hoff hc1 hc2 hc3 hx1 hx2 hx3 hne e1 e2 e3 e4 e5 e6
  have lc : lookup h (h.SYS_count : Int) = some fc :=
    lookup_of_known h _ fc (by omega) (by omega) (by rw [Int.toNat_ofNat]; exact hc3)
  have lx : lookup h (X : Int) = some fx :=
    lookup_of_known h _ fx (by omega) (by omega) (by rw [Int.toNat_ofNat]; exact hx3)
  obtain ⟨t1, t2, t3⟩ := two_cycles h impl k c1 x1 c2 c3 x2 c4 X fc fx hoff lc lx hne
    e1 e2 e3 e4 e5 e6
  refine ⟨t1, ?_, ?_⟩
  · rw [print_sys_counts_line h _ X (by omega) hx2, t2]
  · rw [print_sys_counts_line h _ X (by omega) hx2, t3]
    congr 2
    omega

/-- C14 (witness): from boot, two cycles (count, getpid, count) with the header `syscall_h`: the
line of `getpid` reads 1 in the first report and 2 in the second. -/
theorem counters_accumulate_witness :
    (run syscall_h countingHandlers
        [procOf 100 80 22 (memOf []), procOf 100 80 11 (memOf []), procOf 100 80 22 (memOf []),
          procOf 100 80 22 (memOf []), procOf 100 80 11 (memOf []), procOf 100 80 22 (memOf [])]
        (bootCalling 0)).console[11]? = some (Cprintf.line (some "getpid") 1)
      ∧ (run syscall_h countingHandlers
        [procOf 100 80 22 (memOf []), procOf 100 80 11 (memOf []), procOf 100 80 22 (memOf []),
          procOf 100 80 22 (memOf []), procOf 100 80 11 (memOf []), procOf 100 80 22 (memOf [])]
        (bootCalling 0)).console[23 + 11]? = some (Cprintf.line (some "getpid") 2)
      ∧ (print_sys_counts syscall_h (run syscall_h countingHandlers
        [procOf 100 80 22 (memOf []), procOf 100 80 11 (memOf []), procOf 100 80 22 (memOf []),
          procOf 100 80 22 (memOf []), procOf 100 80 11 (memOf []), procOf 100 80 22 (memOf [])]
        (bootCalling 0)).sys_counts)[11]?
          = some (Cprintf.line (syscallnames 11) ((bootCalling 0).sys_counts 11 + 1 + 1)) :=
  ⟨by decide, by decide,
    ((counters_accumulate syscall_h countingHandlers (bootCalling 0)).2.2.2
      (procOf 100 80 22 (memOf [])) (procOf 100 80 11 (memOf [])) (procOf 100 80 22 (memOf []))
      (procOf 100 80 22 (memOf [])) (procOf 100 80 11 (memOf [])) (procOf 100 80 22 (memOf []))
      11 Handler.sys_usermem Handler.sys_getpid
      (by decide) (by decide) (by decide) (by decide) (by decide) (by decide) (by decide)
      (by decide) (by decide) (by decide) (by decide) (by decide) (by decide) (by decide)).2.2⟩

theorem step_counts_frame {Env : Type} (h : SyscallH) (impl : Handlers Env) (k : Kernel Env)
    (i : Nat) (hi : i = 0 ∨ NELEM_syscalls h ≤ i) :
    (syscall h impl k).sys_counts i = k.sys_counts i := by
  cases hl : lookup h (toInt32 k.proc.eax) with
  | none => rw [syscall_of_none h impl k hl]
  | some f =>
    obtain ⟨_, _, _, _, e5, _, _⟩ := syscall_of_some h impl k f hl
    have hb := lookup_some_bounds h _ f hl
    rw [e5]
    by_cases hflag : flagAtCall h k = 1
    · rw [if_pos hflag]
      have hne : i ≠ (toInt32 k.proc.eax).toNat := by omega
      simp [hne]
    · rw [if_neg hflag]

theorem run_counts_frame {Env : Type} (h : SyscallH) (impl : Handlers Env) (i : Nat)
    (hi : i = 0 ∨ NELEM_syscalls h ≤ i) :
    ∀ (ps : List Proc) (k : Kernel Env), (run h impl ps k).sys_counts i = k.sys_counts i := by
  intro ps
  induction ps with
  | nil => intro k; rfl
  | cons p ps ih =>
    intro k
    show (run h impl ps (syscall h impl (enter p k))).sys_counts i = k.sys_counts i
    rw [ih (syscall h impl (enter p k)), step_counts_frame h impl (enter p k) i hi]
    rfl

theorem syscallnames_unassigned (i : Nat) (hi : 23 ≤ i) : syscallnames i = none := by
  obtain ⟨j, rfl⟩ : ∃ j, i = j + 23 := ⟨i - 23, by omega⟩
  rfl

theorem mem_print_sys_counts_indices (h : SyscallH) (i : Nat) :
    i ∈ print_sys_counts_indices h ↔ 1 ≤ i ∧ i < NELEM_syscalls h := by
  unfold print_sys_counts_indices
  rw [List.mem_range'_1]
  omega

theorem NELEM_syscall_h : NELEM_syscalls syscall_h = 23 := by decide

theorem print_sys_counts_congr (h : SyscallH) (c c' : Nat → Int)
    (hcc : ∀ i, 1 ≤ i → i < NELEM_syscalls h → c i = c' i) :
    print_sys_counts h c = print_sys_counts h c' := by
  have hmap : (List.range' 1 (NELEM_syscalls h - 1)).map
        (fun i => Cprintf.line (syscallnames i) (c i))
      = (List.range' 1 (NELEM_syscalls h - 1)).map
        (fun i => Cprintf.line (syscallnames i) (c' i)) := by
    apply List.map_congr_left
    intro i hi
    have hb := (mem_print_sys_counts_indices h i).mp hi
    rw [hcc i hb.1 hb.2]
  unfold print_sys_counts
  rw [hmap]

theorem syscallnames_assigned_bound :
    ∀ i, syscallnames i ≠ none → 1 ≤ i ∧ i < NELEM_syscalls syscall_h + 2 := by
  intro i hi
  rw [NELEM_syscall_h]
  by_cases h0 : i = 0
  · subst h0
    exact absurd rfl hi
  · by_cases hlt : i < 23
    · omega
    · exact absurd (syscallnames_unassigned i (by omega)) hi

/-- C19: `syscall()` writes `sys_counts` at one index at most, `num`, and then
`1 ≤ num < NELEM(syscalls)`; entries 0 and those from `NELEM(syscalls)` on are never changed, so
`sys_counts[0]` is 0 in every state reached from boot.  `print_sys_counts` reads `sys_counts[i]`
and `syscallnames[i]` only for `1 ≤ i < NELEM(syscalls)`, below the lengths `NELEM(syscalls)` and
`NELEM(syscalls) + 2` of the two arrays; with the numbers of `syscall_h` the assignments to
`syscallnames` (indices 1 to 22) are below `NELEM(syscalls) + 2` as well. -/
theorem tally_indices_in_bounds {Env : Type} (h : SyscallH) (impl : Handlers Env)
    (k : Kernel Env) :
    (∀ i, sys_counts_written h k = some i → 1 ≤ i ∧ i < NELEM_syscalls h)
      ∧ (∀ i, sys_counts_written h k = some i →
          (syscall h impl k).sys_counts
            = fun j => if j = i then k.sys_counts j + 1 else k.sys_counts j)
      ∧ (sys_counts_written h k = none → (syscall h impl k).sys_counts = k.sys_counts)
      ∧ (∀ i, i = 0 ∨ NELEM_syscalls h ≤ i → (syscall h impl k).sys_counts i = k.sys_counts i)
      ∧ (∀ (ps : List Proc) (p : Proc) (e : Env), (run h impl ps (boot p e)).sys_counts 0 = 0)
      ∧ (∀ c : Nat → Int, print_sys_counts h c
          = Cprintf.header
              :: (print_sys_counts_indices h).map (fun i => Cprintf.line (syscallnames i) (c i)))
      ∧ (∀ i, i ∈ print_sys_counts_indices h →
          1 ≤ i ∧ i < NELEM_syscalls h ∧ i < NELEM_syscalls h + 2)
      ∧ (∀ c c' : Nat → Int, (∀ i, 1 ≤ i → i < NELEM_syscalls h → c i = c' i) →
          print_sys_counts h c = print_sys_counts h c')
      ∧ (∀ i, syscallnames i ≠ none → 1 ≤ i ∧ i < NELEM_syscalls syscall_h + 2) := by
  refine ⟨?_, ?_, ?_, step_counts_frame h impl k, ?_, fun _ => rfl, ?_, ?_, ?_⟩
  · intro i hw
    unfold sys_counts_written at hw
    cases hl : lookup h (toInt32 k.proc.eax) with
    | none => rw [hl] at hw; exact absurd hw (by simp)
    | some f =>
      have hb := lookup_some_bounds h _ f hl
      rw [hl] at hw
      by_cases hflag : flagAtCall h k = 1
      · simp only [if_pos hflag, Option.some.injEq] at hw
        omega
      · simp only [if_neg hflag] at hw
        exact absurd hw (by simp)
  · intro i hw
    unfold sys_counts_written at hw
    cases hl : lookup h (toInt32 k.proc.eax) with
    | none => rw [hl] at hw; exact absurd hw (by simp)
    | some f =>
      obtain ⟨_, _, _, _, e5, _, _⟩ := syscall_of_some h impl k f hl
      rw [hl] at hw
      by_cases hflag : flagAtCall h k = 1
      · simp only [if_pos hflag, Option.some.injEq] at hw
        rw [e5, if_pos hflag, hw]
      · simp only [if_neg hflag] at hw
        exact absurd hw (by simp)
  · intro hw
    unfold sys_counts_written at hw
    cases hl : lookup h (toInt32 k.proc.eax) with
    | none => rw [syscall_of_none h impl k hl]
    | some f =>
      obtain ⟨_, _, _, _, e5, _, _⟩ := syscall_of_some h impl k f hl
      rw [hl] at hw
      by_cases hflag : flagAtCall h k = 1
      · simp only [if_pos hflag] at hw
        exact absurd hw (by simp)
      · rw [e5, if_neg hflag]
  · intro ps p e
    rw [run_counts_frame h impl 0 (Or.inl rfl) ps (boot p e)]
    rfl
  · intro i hi
    have := (mem_print_sys_counts_indices h i).mp hi
    omega
  · exact print_sys_counts_congr h
  · exact syscallnames_assigned_bound

/-- C19 (witness): with the header `syscall_h`, a counted `getpid` writes index 11, inside
`[1, 23)`. -/
theorem tally_indices_in_bounds_witness :
    sys_counts_written syscall_h (enter (procOf 100 80 11 (memOf [])) countingOn) = some 11
      ∧ (1 ≤ 11 ∧ 11 < NELEM_syscalls syscall_h) :=
  ⟨by decide,
    (tally_indices_in_bounds syscall_h countingHandlers
      (enter (procOf 100 80 11 (memOf [])) countingOn)).1 11 (by decide)⟩

/-- C13 (failing input): with the numbers of `syscall_h` the line of identifier 22 is printed
with the name `count`, while slot 22 of `syscalls[]` holds `sys_usermem`, whose matching display
name is `usermem`.  The report printed by the run (count, count) from boot shows it: entry 21 of
the console is the line of `close`, the name of the handler `sys_close` in slot 21, and entry 22
is a line named `count` for the slot of `sys_usermem`. -/
theorem report_name_of_usermem_slot :
    syscalls syscall_h 22 = some Handler.sys_usermem
      ∧ (print_sys_counts syscall_h (fun _ => 0))[22]? = some (Cprintf.line (some "count") 0)
      ∧ handlerName Handler.sys_usermem = "usermem"
      ∧ some "count" ≠ some (handlerName Handler.sys_usermem)
      ∧ (run syscall_h countingHandlers
          [procOf 100 80 22 (memOf []), procOf 100 80 22 (memOf [])] (bootCalling 0)).invoked
        = [Handler.sys_usermem, Handler.sys_usermem]
      ∧ (run syscall_h countingHandlers
          [procOf 100 80 22 (memOf []), procOf 100 80 22 (memOf [])] (bootCalling 0)).console[0]?
        = some Cprintf.header
      ∧ syscalls syscall_h 21 = some Handler.sys_close
      ∧ (run syscall_h countingHandlers
          [procOf 100 80 22 (memOf []), procOf 100 80 22 (memOf [])] (bootCalling 0)).console[21]?
        = some (Cprintf.line (some (handlerName Handler.sys_close)) 0)
      ∧ (run syscall_h countingHandlers
          [procOf 100 80 22 (memOf []), procOf 100 80 22 (memOf [])] (bootCalling 0)).console[22]?
        = some (Cprintf.line (some "count") 1)
      ∧ (Cprintf.line (some "count") 1).text = some "Sys call count count = 1\n" := by
  decide

/-- The contents of a report: the header followed by exactly one line
`Sys call <name> count = <count>` for each identifier `i` from 1 to `NELEM(syscalls) - 1` in
ascending order, with `<count>` the value of `sys_counts[i]` and `<name>` the entry
`syscallnames[i]`; no line is printed for identifier 0.  With the numbers of `syscall_h` the
report has 22 lines, every name read is an assigned entry, and the names of identifiers 1 to 21
are the display names of the handlers in those slots; the entry for identifier 22 does not
follow its handler.  Whatever the numbers, the slot designated by `SYS_usermem` holds
`sys_usermem` and no entry of `syscallnames` is `usermem`. -/
theorem report_contents (h : SyscallH) (c : Nat → Int) :
    (print_sys_counts h c)[0]? = some Cprintf.header
      ∧ (print_sys_counts h c).length = NELEM_syscalls h
      ∧ (∀ i, 1 ≤ i → i < NELEM_syscalls h →
          (print_sys_counts h c)[i]? = some (Cprintf.line (syscallnames i) (c i)))
      ∧ (∀ (name : String) (count : Int), (Cprintf.line (some name) count).text
          = some ("Sys call " ++ name ++ " count = " ++ toString count ++ "\n"))
      ∧ NELEM_syscalls syscall_h = 23
      ∧ (∀ i, 1 ≤ i → i < NELEM_syscalls syscall_h → syscallnames i ≠ none)
      ∧ (∀ i, 1 ≤ i → i ≤ 21 →
          ∃ f, syscalls syscall_h i = some f ∧ syscallnames i = some (handlerName f))
      ∧ (syscalls syscall_h 22 = some Handler.sys_usermem ∧ syscallnames 22 = some "count")
      ∧ syscalls h h.SYS_usermem = some Handler.sys_usermem
      ∧ (∀ i, syscallnames i ≠ some (handlerName Handler.sys_usermem)) := by
  have hpos : 1 ≤ NELEM_syscalls h := by
    unfold NELEM_syscalls syscalls_init
    simp only [List.foldl]
    omega
  refine ⟨by simp [print_sys_counts], ?_, fun i h1 h2 => print_sys_counts_line h c i h1 h2,
    fun _ _ => rfl, NELEM_syscall_h, ?_, ?_, ⟨by decide, rfl⟩, ?_, ?_⟩
  · unfold print_sys_counts
    rw [List.length_cons, List.length_map, List.length_range']
    omega
  · intro i h1 h2
    rw [NELEM_syscall_h] at h2
    interval_cases i <;> decide
  · intro i h1 h2
    interval_cases i
    · exact ⟨Handler.sys_fork, by decide, rfl⟩
    · exact ⟨Handler.sys_exit, by decide, rfl⟩
    · exact ⟨Handler.sys_wait, by decide, rfl⟩
    · exact ⟨Handler.sys_pipe, by decide, rfl⟩
    · exact ⟨Handler.sys_read, by decide, rfl⟩
    · exact ⟨Handler.sys_kill, by decide, rfl⟩
    · exact ⟨Handler.sys_exec, by decide, rfl⟩
    · exact ⟨Handler.sys_fstat, by decide, rfl⟩
    · exact ⟨Handler.sys_chdir, by decide, rfl⟩
    · exact ⟨Handler.sys_dup, by decide, rfl⟩
    · exact ⟨Handler.sys_getpid, by decide, rfl⟩
    · exact ⟨Handler.sys_sbrk, by decide, rfl⟩
    · exact ⟨Handler.sys_sleep, by decide, rfl⟩
    · exact ⟨Handler.sys_uptime, by decide, rfl⟩
    · exact ⟨Handler.sys_open, by decide, rfl⟩
    · exact ⟨Handler.sys_write, by decide, rfl⟩
    · exact ⟨Handler.sys_mknod, by decide, rfl⟩
    · exact ⟨Handler.sys_unlink, by decide, rfl⟩
    · exact ⟨Handler.sys_link, by decide, rfl⟩
    · exact ⟨Handler.sys_mkdir, by decide, rfl⟩
    · exact ⟨Handler.sys_close, by decide, rfl⟩
  · simp [syscalls, syscalls_init]
  · intro i
    by_cases hlt : i < 23
    · interval_cases i <;> decide
    · rw [syscallnames_unassigned i (by omega)]
      exact fun hn => Option.noConfusion hn

end Syscall
